import Mathlib

/-!
Verification development for the FilterResult pipeline of the image-filter
evaluation engine (src/core/SkImageFilterTypes.cpp).

The embedding below translates the geometry primitives and the FilterResult
operations into Lean. Machine floating point is idealized as exact rational
arithmetic (the code computes the integer-rectangle paths in double precision
with an epsilon guard precisely so that exact-integer inputs behave as in
infinite precision). Integer rectangles are half-open [l, r) x [t, b) with
Int coordinates. Pixel colors are abstracted as a single rational channel
with 0 denoting transparent black.

Helpers that live in repository headers outside the provided sources
(SkRectPriv::ClosestDisjointEdge, SkRectPriv::QuadContainsRect, SkNextLog2,
SkColorFilters::Compose, the SkIRect/SkMatrix basics) are modelled from the
specification text; each such definition is marked in its doc comment.
-/

namespace Skif

/-- kRoundEpsilon from SkImageFilterTypes.cpp: guards float rounding so that
operations that would produce integers in infinite precision round to them. -/
def kRoundEpsilon : ℚ := 1 / 1000

/-- Integer rectangle, half-open [l, r) x [t, b), mirroring SkIRect
(modelled from the spec, section 3 Rectangle semantics). -/
structure IRect where
  l : ℤ
  t : ℤ
  r : ℤ
  b : ℤ
deriving DecidableEq

namespace IRect

/-- SkIRect::isEmpty: empty iff r <= l or b <= t. -/
def isEmpty (x : IRect) : Bool := x.r ≤ x.l || x.b ≤ x.t

/-- SkIRect::MakeEmpty, the canonical all-zero empty rectangle. -/
def emptyR : IRect := ⟨0, 0, 0, 0⟩

/-- SkIRect::intersect: returns the intersection when it is non-empty,
otherwise signals failure (the C++ mutating call returns false and leaves
the receiver unchanged). -/
def inter (x y : IRect) : Option IRect :=
  let m : IRect := ⟨max x.l y.l, max x.t y.t, min x.r y.r, min x.b y.b⟩
  if m.isEmpty then none else some m

/-- SkIRect::contains(SkIRect): false when either rectangle is empty. -/
def containsR (x y : IRect) : Bool :=
  !y.isEmpty && !x.isEmpty && x.l ≤ y.l && x.t ≤ y.t && y.r ≤ x.r && y.b ≤ x.b

/-- Mathematical containment used to state spec properties: the empty
rectangle is contained in everything. -/
def subsetOf (x y : IRect) : Prop :=
  x.isEmpty = true ∨ (y.l ≤ x.l ∧ y.t ≤ x.t ∧ x.r ≤ y.r ∧ x.b ≤ y.b)

instance (x y : IRect) : Decidable (subsetOf x y) := by
  unfold subsetOf; infer_instance

/-- Membership of an integer point (a pixel coordinate) in the half-open box. -/
def containsPt (x : IRect) (p : ℤ × ℤ) : Bool :=
  x.l ≤ p.1 && p.1 < x.r && x.t ≤ p.2 && p.2 < x.b

def width (x : IRect) : ℤ := x.r - x.l

def height (x : IRect) : ℤ := x.b - x.t

/-- SkIRect::makeOutset by (dx, dy). -/
def outset (x : IRect) (dx dy : ℤ) : IRect := ⟨x.l - dx, x.t - dy, x.r + dx, x.b + dy⟩

/-- SkIRect::MakeXYWH at an origin with the given size. -/
def atOrigin (ox oy w h : ℤ) : IRect := ⟨ox, oy, ox + w, oy + h⟩

end IRect

/-- Float rectangle (SkRect), idealized over the rationals. -/
structure QRect where
  l : ℚ
  t : ℚ
  r : ℚ
  b : ℚ
deriving DecidableEq

namespace QRect

/-- SkRect::isEmpty. -/
def isEmpty (x : QRect) : Bool := x.r ≤ x.l || x.b ≤ x.t

def ofIRect (x : IRect) : QRect := ⟨x.l, x.t, x.r, x.b⟩

def width (x : QRect) : ℚ := x.r - x.l

def height (x : QRect) : ℚ := x.b - x.t

/-- SkRect::makeInset by d on every side (negative d outsets). -/
def insetBy (x : QRect) (d : ℚ) : QRect := ⟨x.l + d, x.t + d, x.r - d, x.b - d⟩

/-- SkRect::roundOut without the epsilon guard. -/
def roundOutIR (x : QRect) : IRect := ⟨⌊x.l⌋, ⌊x.t⌋, ⌈x.r⌉, ⌈x.b⌉⟩

/-- SkRect::intersect, with the same keep-on-failure convention as IRect.inter. -/
def qinter (x y : QRect) : Option QRect :=
  let m : QRect := ⟨max x.l y.l, max x.t y.t, min x.r y.r, min x.b y.b⟩
  if m.l < m.r ∧ m.t < m.b then some m else none

end QRect

/-- skif::RoundOut from SkImageFilterTypes.cpp: inset by kRoundEpsilon, then
round out. -/
def RoundOut (x : QRect) : IRect := (x.insetBy kRoundEpsilon).roundOutIR

/-- skif::RoundIn from SkImageFilterTypes.cpp: outset by kRoundEpsilon, then
round in. -/
def RoundIn (x : QRect) : IRect :=
  ⟨⌈x.l - kRoundEpsilon⌉, ⌈x.t - kRoundEpsilon⌉, ⌊x.r + kRoundEpsilon⌋, ⌊x.b + kRoundEpsilon⌋⟩

/-- Affine 3x3 matrix [[sx kx tx], [ky sy ty], [0 0 1]] over the rationals
(SkMatrix restricted to its non-perspective case; the spec treats perspective
layer matrices as a fallback outside these operations). -/
structure Mat where
  sx : ℚ
  kx : ℚ
  tx : ℚ
  ky : ℚ
  sy : ℚ
  ty : ℚ
deriving DecidableEq

namespace Mat

/-- SkMatrix::I. -/
def I : Mat := ⟨1, 0, 0, 0, 1, 0⟩

/-- SkMatrix::Translate. -/
def translateM (dx dy : ℚ) : Mat := ⟨1, 0, dx, 0, 1, dy⟩

/-- SkMatrix::setScaleTranslate. -/
def scaleTranslate (a d dx dy : ℚ) : Mat := ⟨a, 0, dx, 0, d, dy⟩

/-- Matrix product: (comp a b) applies b first, then a (SkMatrix::Concat(a, b)). -/
def comp (a b : Mat) : Mat :=
  ⟨a.sx * b.sx + a.kx * b.ky, a.sx * b.kx + a.kx * b.sy, a.sx * b.tx + a.kx * b.ty + a.tx,
   a.ky * b.sx + a.sy * b.ky, a.ky * b.kx + a.sy * b.sy, a.ky * b.tx + a.sy * b.ty + a.ty⟩

/-- Map a point. -/
def mapPt (m : Mat) (p : ℚ × ℚ) : ℚ × ℚ :=
  (m.sx * p.1 + m.kx * p.2 + m.tx, m.ky * p.1 + m.sy * p.2 + m.ty)

/-- SkMatrix::isScaleTranslate: no skew components. -/
def isScaleTranslate (m : Mat) : Bool := m.kx = 0 && m.ky = 0

def det (m : Mat) : ℚ := m.sx * m.sy - m.kx * m.ky

/-- SkMatrix::invert, failing on a singular matrix. -/
def invert (m : Mat) : Option Mat :=
  if m.det = 0 then none
  else
    let d := m.det
    some ⟨m.sy / d, -m.kx / d, (m.kx * m.ty - m.sy * m.tx) / d,
          -m.ky / d, m.sx / d, (m.ky * m.tx - m.sx * m.ty) / d⟩

/-- SkMatrix::mapRect for a non-perspective matrix: the bounding box of the
four mapped corners (empty input maps to the canonical empty rect, as in
Mapping::map<SkRect>). -/
def mapQRect (m : Mat) (x : QRect) : QRect :=
  if x.isEmpty then ⟨0, 0, 0, 0⟩
  else
    let c0 := m.mapPt (x.l, x.t)
    let c1 := m.mapPt (x.r, x.t)
    let c2 := m.mapPt (x.r, x.b)
    let c3 := m.mapPt (x.l, x.b)
    ⟨min (min c0.1 c1.1) (min c2.1 c3.1), min (min c0.2 c1.2) (min c2.2 c3.2),
     max (max c0.1 c1.1) (max c2.1 c3.1), max (max c0.2 c1.2) (max c2.2 c3.2)⟩

end Mat

/-- sk_double_saturate2int: clamp to the int32 range. -/
def sat32 (n : ℤ) : ℤ := max (-(2 ^ 31)) (min (2 ^ 31 - 1) n)

/-- Mapping::map<SkIRect> from SkImageFilterTypes.cpp: empty maps to empty;
a scale-translate matrix is applied coordinatewise in (idealized) double
precision with the kRoundEpsilon-guarded floor/ceil and int32 saturation;
general matrices map the float rect and RoundOut. -/
def mapIRect (m : Mat) (g : IRect) : IRect :=
  if g.isEmpty then IRect.emptyR
  else if m.isScaleTranslate then
    let l := m.sx * g.l + m.tx
    let r := m.sx * g.r + m.tx
    let t := m.sy * g.t + m.ty
    let b := m.sy * g.b + m.ty
    ⟨sat32 ⌊min l r + kRoundEpsilon⌋, sat32 ⌊min t b + kRoundEpsilon⌋,
     sat32 ⌈max l r - kRoundEpsilon⌉, sat32 ⌈max t b - kRoundEpsilon⌉⟩
  else RoundOut (m.mapQRect (QRect.ofIRect g))

/-- LayerSpace<SkMatrix>::inverseMapRect on integer rectangles: empty inputs
succeed with the empty rect; a scale-translate matrix uses the specialized
1px-preserving inverse, failing on a zero scale factor; otherwise the matrix
is inverted (failing when singular), the rect mapped, and rounded out. -/
def inverseMapRect (m : Mat) (rect : IRect) : Option IRect :=
  if rect.isEmpty then some IRect.emptyR
  else if m.isScaleTranslate then
    if m.sx = 0 ∨ m.sy = 0 then none
    else
      let l := (rect.l - m.tx) / m.sx
      let r := (rect.r - m.tx) / m.sx
      let t := (rect.t - m.ty) / m.sy
      let b := (rect.b - m.ty) / m.sy
      some ⟨sat32 ⌊min l r + kRoundEpsilon⌋, sat32 ⌊min t b + kRoundEpsilon⌋,
            sat32 ⌈max l r - kRoundEpsilon⌉, sat32 ⌈max t b - kRoundEpsilon⌉⟩
  else
    match m.invert with
    | some inv => some (RoundOut (inv.mapQRect (QRect.ofIRect rect)))
    | none => none

end Skif

namespace Skif

/-- SkTileMode. -/
inductive Tile where
  | clamp
  | repeatT
  | mirror
  | decal
deriving DecidableEq

/-- SkSamplingOptions, reduced to the cases the pipeline distinguishes:
nearest / linear filtering, a bicubic resampler, or an anisotropic level
(mipmap policy is ignored, as the code comments note SkSpecialImages are not
drawn with mipmaps). -/
inductive Sampling where
  | nearest
  | linear
  | aniso (level : ℕ)
  | cubic (bPar cPar : ℚ)
deriving DecidableEq

/-- kDefaultSampling: linear filtering, no mipmaps. -/
def kDefaultSampling : Sampling := .linear

namespace Sampling

def useCubic : Sampling → Bool
  | .cubic _ _ => true
  | _ => false

def isAniso : Sampling → Bool
  | .aniso _ => true
  | _ => false

end Sampling

/-- SkColorFilter, abstracted to its pixel function on the single-channel
color model together with its affectsTransparentBlack capability flag (the
code branches on the flag, never on the function). -/
structure ColorFilter where
  applyCF : ℚ → ℚ
  affectsTransparentBlack : Bool

/-- SkColorFilters::Compose(outer, inner): modelled from the spec, which fixes
the order composed(x) = outer(inner(x)); a composed filter can affect
transparent black when either part does (conservative capability flag). -/
def composeCF (outer : ColorFilter) (inner : Option ColorFilter) : ColorFilter :=
  match inner with
  | none => outer
  | some f =>
    ⟨fun x => outer.applyCF (f.applyCF x),
     f.affectsTransparentBlack || outer.affectsTransparentBlack⟩

/-- Capability flag of an optional color filter (absent filters are the
identity and do not affect transparent black). -/
def cfAffectsTB : Option ColorFilter → Bool
  | none => false
  | some f => f.affectsTransparentBlack

/-- SkSpecialImage: an immutable view (subset) of a backing store of pixels.
px is indexed by backing-store coordinates; the image's texels are px offset
by the subset's top-left. colorType/colorSpace are abstract tags compared
against the Context's. -/
structure Image where
  px : ℤ → ℤ → ℚ
  subset : IRect
  backW : ℤ
  backH : ℤ
  colorType : ℕ
  colorSpace : ℕ

namespace Image

def width (img : Image) : ℤ := img.subset.width

def height (img : Image) : ℤ := img.subset.height

/-- Texel lookup in image-local coordinates (0-based within the subset). -/
def texel (img : Image) (u v : ℤ) : ℚ := img.px (img.subset.l + u) (img.subset.t + v)

/-- SkSpecialImage::makeSubset: s is given in image-local coordinates. -/
def makeSubset (img : Image) (s : IRect) : Image :=
  { img with subset := ⟨img.subset.l + s.l, img.subset.t + s.t,
                        img.subset.l + s.r, img.subset.t + s.b⟩ }

end Image

/-- skif::FilterResult: a lazy image value (SkImageFilterTypes.h data model,
fields per the spec table in section 3). -/
structure FilterResult where
  image : Option Image
  transform : Mat
  sampling : Sampling
  tileMode : Tile
  colorFilter : Option ColorFilter
  layerBounds : IRect

namespace FilterResult

/-- The default-constructed (empty / fully transparent) FilterResult. -/
def emptyFR : FilterResult :=
  ⟨none, Mat.I, kDefaultSampling, .decal, none, IRect.emptyR⟩

/-- FilterResult(std::pair<sk_sp<SkSpecialImage>, LayerSpace<SkIPoint>>):
wraps an image at an integer origin; a null image gives the empty result. -/
def ofPair (p : Option Image × (ℤ × ℤ)) : FilterResult :=
  match p.1 with
  | none => emptyFR
  | some img =>
    ⟨some img, Mat.translateM p.2.1 p.2.2, kDefaultSampling, .decal, none,
     IRect.atOrigin p.2.1 p.2.2 img.width img.height⟩

end FilterResult

/-- skif::Context, reduced to the fields these operations read: the desired
output rectangle and the backend/working color tags. The backend surface
factory is idealized as always succeeding on non-empty bounds. -/
structure Context where
  desiredOutput : IRect
  colorType : ℕ
  colorSpace : ℕ

/-- AutoSurface construction plus snap(): allocates a surface covering
dstBounds (markNewSurface is counted by the caller: the constructor marks a
new surface even when the bounds are empty and allocation is skipped),
renders content (given in layer coordinates), and snaps it to an image whose
subset exactly fits the bounds. Empty bounds yield no image. -/
def autoSurfaceSnap (ctx : Context) (dstBounds : IRect) (content : ℤ → ℤ → ℚ) :
    Option Image × (ℤ × ℤ) :=
  if dstBounds.isEmpty then (none, (0, 0))
  else
    (some ⟨fun u v => content (dstBounds.l + u) (dstBounds.t + v),
           ⟨0, 0, dstBounds.width, dstBounds.height⟩,
           dstBounds.width, dstBounds.height, ctx.colorType, ctx.colorSpace⟩,
     (dstBounds.l, dstBounds.t))

/-- SkScalarRoundToScalar / SkScalarRoundToInt: round half away from zero is
round-half-up for the nonnegative intermediate values used here; the code
only applies it to values it then requires to be within epsilon of the
result, so floor(x + 1/2) is the faithful idealization. -/
def roundQ (q : ℚ) : ℤ := ⌊q + 1 / 2⌋

/-- SkScalarNearlyEqual with an explicit tolerance. -/
def nearlyEqQ (a b tol : ℚ) : Bool := |a - b| ≤ tol

/-- is_nearly_integer_translation from SkImageFilterTypes.cpp: returns the
integer translation when every entry of the matrix is within kRoundEpsilon
of the ideal translation matrix, else none. -/
def is_nearly_integer_translation (m : Mat) : Option (ℤ × ℤ) :=
  let dx : ℤ := roundQ m.tx
  let dy : ℤ := roundQ m.ty
  if nearlyEqQ m.sx 1 kRoundEpsilon && nearlyEqQ m.kx 0 kRoundEpsilon &&
     nearlyEqQ m.tx dx kRoundEpsilon && nearlyEqQ m.ky 0 kRoundEpsilon &&
     nearlyEqQ m.sy 1 kRoundEpsilon && nearlyEqQ m.ty dy kRoundEpsilon then
    some (dx, dy)
  else none

/-- SkRectPriv::ClosestDisjointEdge. Modelled from the spec: when src and dst
are disjoint, the closest row, column, or corner pixel rectangle of src to
dst; empty inputs give the empty rect. -/
def closestDisjointEdge (src dst : IRect) : IRect :=
  if src.isEmpty || dst.isEmpty then IRect.emptyR
  else
    let lr : ℤ × ℤ :=
      if dst.r ≤ src.l then (src.l, src.l + 1)
      else if dst.l ≥ src.r then (src.r - 1, src.r)
      else (src.l, src.r)
    let tb : ℤ × ℤ :=
      if dst.b ≤ src.t then (src.t, src.t + 1)
      else if dst.t ≥ src.b then (src.b - 1, src.b)
      else (src.t, src.b)
    ⟨lr.1, tb.1, lr.2, tb.2⟩

/-- LayerSpace<SkIRect>::relevantSubset from SkImageFilterTypes.cpp: decal and
clamp restrict to the part of src meeting dst (decal collapses a disjoint
pair to empty, clamp keeps the closest edge pixels); periodic modes need the
whole source. -/
def relevantSubset (src dst : IRect) (tm : Tile) : IRect :=
  if tm = .decal ∨ tm = .clamp then
    match src.inter dst with
    | some x => x
    | none => if tm = .decal then IRect.emptyR else closestDisjointEdge src dst
  else src

/-- extract_subset from SkImageFilterTypes.cpp: assuming the image is
decal-tiled, take the subset of it relevant to dstBounds (with clamp
semantics when clampSrcIfDisjoint) and return it with its layer origin. -/
def extract_subset (img : Image) (origin : ℤ × ℤ) (dstBounds : IRect)
    (clampSrcIfDisjoint : Bool) : Option Image × (ℤ × ℤ) :=
  let ib0 : IRect := IRect.atOrigin origin.1 origin.2 img.width img.height
  let ib := relevantSubset ib0 dstBounds (if clampSrcIfDisjoint then .clamp else .decal)
  if ib.isEmpty then (none, (0, 0))
  else
    (some (img.makeSubset ⟨ib.l - origin.1, ib.t - origin.2,
                           ib.r - origin.1, ib.b - origin.2⟩),
     (ib.l, ib.t))

/-- Exactness of an integer as a 32-bit IEEE float (24-bit significand):
small magnitudes are exact, larger ones must shed low bits. -/
def floatExactInt (n : ℤ) : Bool :=
  n = 0 || (Nat.log2 n.natAbs < 24 || (n.natAbs % 2 ^ (Nat.log2 n.natAbs - 23) = 0))

/-- The round-trip guard in periodic_axis_transform, which rejects the
optimization when sk_double_saturate2int(t) != (float) t: t must be an
integer in int32 range that is exactly representable as a float. -/
def floatRoundTrips (t : ℚ) : Bool :=
  t.den = 1 && decide (-(2 ^ 31) ≤ t.num) && decide (t.num ≤ 2 ^ 31 - 1) && floatExactInt t.num

/-- periodic_axis_transform from SkImageFilterTypes.cpp: when a repeat or
mirror tiling of crop covers output within at most one period on each axis,
the single visible tile is re-expressed as a scale-translate matrix (sign
flips per axis on odd mirror periods), provided the exact translation
round-trips as a float. -/
def periodic_axis_transform (tm : Tile) (crop output : IRect) : Option Mat :=
  if tm = .clamp ∨ tm = .decal then none
  else
    let cropL : ℚ := crop.l
    let cropT : ℚ := crop.t
    let cropWidth : ℚ := (crop.r : ℚ) - cropL
    let cropHeight : ℚ := (crop.b : ℚ) - cropT
    let periodL : ℤ := ⌊((output.l : ℚ) - cropL) / cropWidth⌋
    let periodT : ℤ := ⌊((output.t : ℚ) - cropT) / cropHeight⌋
    let periodR : ℤ := ⌈((output.r : ℚ) - cropL) / cropWidth⌉
    let periodB : ℤ := ⌈((output.b : ℚ) - cropT) / cropHeight⌉
    if periodR - periodL ≤ 1 ∧ periodB - periodT ≤ 1 then
      let fx : ℚ × ℚ :=
        if tm = .mirror ∧ periodL % 2 ≠ 0 then (-1, cropWidth - (-cropL)) else (1, -cropL)
      let fy : ℚ × ℚ :=
        if tm = .mirror ∧ periodT % 2 ≠ 0 then (-1, cropHeight - (-cropT)) else (1, -cropT)
      let txq : ℚ := fx.2 + periodL * cropWidth + cropL
      let tyq : ℚ := fy.2 + periodT * cropHeight + cropT
      if floatRoundTrips txq && floatRoundTrips tyq then
        some (Mat.scaleTranslate fx.1 fy.1 txq tyq)
      else none
    else none

end Skif

namespace Skif

/-- Four booleans attached to the top, right, bottom, left edges of a
rectangle (the order used by SkRectPriv::QuadContainsRectMask). -/
structure EdgeMask where
  et : Bool
  er : Bool
  eb : Bool
  el : Bool
deriving DecidableEq

namespace EdgeMask

def allE (m : EdgeMask) : Bool := m.et && m.er && m.eb && m.el

def orE (m n : EdgeMask) : EdgeMask := ⟨m.et || n.et, m.er || n.er, m.eb || n.eb, m.el || n.el⟩

end EdgeMask

/-- Half-plane test for one directed edge of the mapped quad: p is inside
(or within tol of) the half-plane bounded by the edge from a to e, with w
giving the quad's orientation sign. The tolerance is normalized by the edge's
L1 length. Modelled from the spec: corners of the destination must lie inside
the mapped quad within epsilon. -/
def edgeInside (w : ℤ) (a e p : ℚ × ℚ) (tol : ℚ) : Bool :=
  let cross := (e.1 - a.1) * (p.2 - a.2) - (e.2 - a.2) * (p.1 - a.1)
  (w : ℚ) * cross ≥ -(tol * (|e.1 - a.1| + |e.2 - a.2|))

/-- SkRectPriv::QuadContainsRectMask. Modelled from the spec: for each edge
(ordered T, R, B, L) of src mapped through m, whether all four corners of dst
lie on the inner side within tol. A degenerate (orientation-free) matrix
contains nothing. -/
def quadContainsRectMask (m : Mat) (src dst : QRect) (tol : ℚ) : EdgeMask :=
  let w : ℤ := if m.det > 0 then 1 else if m.det < 0 then -1 else 0
  if w = 0 then ⟨false, false, false, false⟩
  else
    let c0 := m.mapPt (src.l, src.t)
    let c1 := m.mapPt (src.r, src.t)
    let c2 := m.mapPt (src.r, src.b)
    let c3 := m.mapPt (src.l, src.b)
    let ps : List (ℚ × ℚ) := [(dst.l, dst.t), (dst.r, dst.t), (dst.r, dst.b), (dst.l, dst.b)]
    ⟨ps.all fun p => edgeInside w c0 c1 p tol,
     ps.all fun p => edgeInside w c1 c2 p tol,
     ps.all fun p => edgeInside w c2 c3 p tol,
     ps.all fun p => edgeInside w c3 c0 p tol⟩

/-- SkRectPriv::QuadContainsRect. Modelled from the spec: the mapped quad of
src under m contains dst within tol. -/
def quadContainsRect (m : Mat) (src dst : QRect) (tol : ℚ) : Bool :=
  (quadContainsRectMask m src dst tol).allE

/-- Condition getMinMaxScales(f) followed by both factors nearly equal 1 with
tolerance 0.2, decided exactly: both singular values of the 2x2 linear part
lie in [4/5, 6/5], i.e. both eigenvalues of the Gram matrix lie in
[(4/5)^2, (6/5)^2], located by the characteristic polynomial. -/
def minMaxScalesNear1 (m : Mat) : Bool :=
  let trG : ℚ := m.sx ^ 2 + m.kx ^ 2 + m.ky ^ 2 + m.sy ^ 2
  let detG : ℚ := m.det ^ 2
  let lo : ℚ := (4 / 5) ^ 2
  let hi : ℚ := (6 / 5) ^ 2
  (lo ^ 2 - trG * lo + detG ≥ 0) && (hi ^ 2 - trG * hi + detG ≥ 0) &&
  (2 * lo ≤ trG) && (trG ≤ 2 * hi)

/-- FilterResult::BoundsAnalysis, a bitset of five flags. -/
structure BoundsAnalysis where
  requiresLayerCrop : Bool
  dstBoundsNotCovered : Bool
  hasLayerFillingEffect : Bool
  requiresShaderTiling : Bool
  requiresDecalInLayerSpace : Bool
deriving DecidableEq

/-- FilterResult::analyzeBounds(xtraTransform, dstBounds) from
SkImageFilterTypes.cpp, lines 620-733. The three stages: (1) is the layer
bounds geometry visible in dstBounds and does it clip the image; (2) are
tiling or transparency-affecting color filter effects visible; (3) would
sampling reach outside the image subset on a non-hardware edge, and must
decal tiling be applied in layer space. -/
def analyzeBounds (fr : FilterResult) (xtra : Mat) (dstBounds : IRect) : BoundsAnalysis :=
  match fr.image with
  | none => ⟨false, false, false, false, false⟩
  | some img =>
    let fills : Bool := fr.tileMode ≠ .decal || cfAffectsTB fr.colorFilter
    let pcb0 : QRect := QRect.ofIRect dstBounds
    let step1 : Bool × QRect :=
      if quadContainsRect xtra (QRect.ofIRect fr.layerBounds) pcb0 kRoundEpsilon then
        (false, pcb0)
      else
        let imageBoundsL : IRect :=
          mapIRect fr.transform ⟨0, 0, img.width, img.height⟩
        let req : Bool := fills || !(fr.layerBounds.containsR imageBoundsL)
        if req then
          let lbInDst := mapIRect xtra fr.layerBounds
          let pcb1 :=
            match pcb0.qinter (QRect.ofIRect lbInDst) with
            | some x => x
            | none => pcb0
          (true, pcb1)
        else (false, pcb0)
    let rlc := step1.1
    let pcb := step1.2
    let imageBounds : QRect := ⟨0, 0, img.width, img.height⟩
    let net := xtra.comp fr.transform
    let dnc : Bool := !(quadContainsRect net imageBounds pcb kRoundEpsilon)
    let hlfe : Bool := dnc && fills
    let sampleRadius : ℚ := if fr.sampling.useCubic then 3 / 2 else 1 / 2
    let safe0 := imageBounds.insetBy sampleRadius
    let safe :=
      if fr.sampling = kDefaultSampling && (is_nearly_integer_translation net).isNone then
        safe0.insetBy kRoundEpsilon
      else safe0
    let pcb2 := pcb.insetBy (1 / 2)
    let em := quadContainsRectMask net safe pcb2 kRoundEpsilon
    if em.allE then ⟨rlc, dnc, hlfe, false, false⟩
    else
      let hw0 : EdgeMask :=
        ⟨img.subset.t = 0, img.subset.r = img.backW,
         img.subset.b = img.backH, img.subset.l = 0⟩
      let hw : EdgeMask :=
        if fr.tileMode = .repeatT ∨ fr.tileMode = .mirror then
          ⟨hw0.et && hw0.eb, hw0.er && hw0.el, hw0.eb && hw0.et, hw0.el && hw0.er⟩
        else hw0
      let rst : Bool := !(em.orE hw).allE
      let rdils : Bool :=
        fr.tileMode = .decal && fr.sampling ≠ .nearest && !minMaxScalesNear1 net
      ⟨rlc, dnc, hlfe, rst, rdils⟩

/-- FilterResult::analyzeBounds(dstBounds): the overload with an identity
extra transform. -/
def analyzeBoundsId (fr : FilterResult) (dstBounds : IRect) : BoundsAnalysis :=
  analyzeBounds fr Mat.I dstBounds

/-- FilterResult::updateTileMode from SkImageFilterTypes.cpp, lines 735-742:
on a non-empty result, install the tile mode, and for any non-decal mode
widen the layer bounds to the desired output. -/
def updateTileMode (fr : FilterResult) (ctx : Context) (tm : Tile) : FilterResult :=
  if fr.image.isSome then
    { fr with tileMode := tm,
              layerBounds := if tm ≠ .decal then ctx.desiredOutput else fr.layerBounds }
  else fr

end Skif

namespace Skif

/-- Tiled texel lookup in image-local coordinates. Decal reads transparent
black outside the image; clamp pins to the nearest edge texel; repeat and
mirror wrap periodically. -/
def texelTiled (img : Image) (tm : Tile) (u v : ℤ) : ℚ :=
  let w := img.width
  let h := img.height
  if w ≤ 0 ∨ h ≤ 0 then 0
  else
    match tm with
    | .decal => if 0 ≤ u ∧ u < w ∧ 0 ≤ v ∧ v < h then img.texel u v else 0
    | .clamp => img.texel (max 0 (min (w - 1) u)) (max 0 (min (h - 1) v))
    | .repeatT => img.texel (u % w) (v % h)
    | .mirror =>
      let mu := u % (2 * w)
      let mv := v % (2 * h)
      img.texel (if mu < w then mu else 2 * w - 1 - mu) (if mv < h then mv else 2 * h - 1 - mv)

/-- Filtered sample of a tiled image at a continuous image-space position.
Nearest picks the texel containing the point; every other mode is modelled
as the bilinear filter (kDefaultSampling); the claims evaluated here never
construct cubic or anisotropic results. -/
def sampleAt (img : Image) (tm : Tile) (s : Sampling) (x y : ℚ) : ℚ :=
  match s with
  | .nearest => texelTiled img tm ⌊x⌋ ⌊y⌋
  | _ =>
    let u0 : ℤ := ⌊x - 1 / 2⌋
    let v0 : ℤ := ⌊y - 1 / 2⌋
    let fx : ℚ := (x - 1 / 2) - u0
    let fy : ℚ := (y - 1 / 2) - v0
    (1 - fx) * (1 - fy) * texelTiled img tm u0 v0 +
      fx * (1 - fy) * texelTiled img tm (u0 + 1) v0 +
      (1 - fx) * fy * texelTiled img tm u0 (v0 + 1) +
      fx * fy * texelTiled img tm (u0 + 1) (v0 + 1)

/-- Logical image of a FilterResult at a layer-space pixel. Modelled from the
spec (section 3, Evaluation order): sample the image under the transform at
the pixel center, tile, apply the color filter, then crop to layerBounds; an
absent image, a point outside layerBounds, or a degenerate transform is
transparent black. -/
def denote (fr : FilterResult) (p : ℤ × ℤ) : ℚ :=
  match fr.image with
  | none => 0
  | some img =>
    if fr.layerBounds.containsPt p then
      let preCF : ℚ :=
        match fr.transform.invert with
        | none => 0
        | some inv =>
          let s := inv.mapPt ((p.1 : ℚ) + 1 / 2, (p.2 : ℚ) + 1 / 2)
          sampleAt img fr.tileMode fr.sampling s.1 s.2
      match fr.colorFilter with
      | none => preCF
      | some cf => cf.applyCF preCF
    else 0

/-- FilterResult::resolve(dstBounds, preserveTransparency) from
SkImageFilterTypes.cpp, lines 1025-1055: restrict to the layer bounds unless
transparency is preserved; extract a subset directly when there is no
deferred effect and the transform is a near-integer translation; otherwise
render into a new surface (counted). The surface's pixels are the rendered
logical image over dstBounds. -/
def resolve (fr : FilterResult) (ctx : Context) (dstBounds : IRect)
    (preserveTransparency : Bool) : (Option Image × (ℤ × ℤ)) × ℕ :=
  match fr.image with
  | none => ((none, (0, 0)), 0)
  | some img =>
    let db? : Option IRect :=
      if preserveTransparency then some dstBounds else dstBounds.inter fr.layerBounds
    match db? with
    | none => ((none, (0, 0)), 0)
    | some db =>
      let subsetCompatible : Bool :=
        fr.colorFilter.isNone && fr.tileMode = .decal && !preserveTransparency
      match (if subsetCompatible then is_nearly_integer_translation fr.transform else none) with
      | some o => (extract_subset img o db false, 0)
      | none =>
        (autoSurfaceSnap ctx db (fun x y => if db.containsPt (x, y) then denote fr (x, y) else 0),
         1)

/-- compatible_sampling from SkImageFilterTypes.cpp, lines 908-960: when the
two samplings can be merged into one pass, the merged sampling; none when the
pair must stay as two passes (nearest-neighbor with a meaningful transform). -/
def compatible_sampling (current : Sampling) (currentXformWontAffectNearest : Bool)
    (next : Sampling) (nextXformWontAffectNearest : Bool) : Option Sampling :=
  match current, next with
  | .aniso a, .aniso c => some (.aniso (max a c))
  | .aniso a, .linear => some (.aniso a)
  | .linear, .aniso c => some (.aniso c)
  | .cubic bp cp, .linear => some (.cubic bp cp)
  | .cubic bp cp, .cubic bn cn =>
    if bp = bn ∧ cp = cn then some (.cubic bp cp) else none
  | .linear, .cubic bn cn => some (.cubic bn cn)
  | .linear, .linear => some .linear
  | .linear, .nearest => if currentXformWontAffectNearest then some .nearest else none
  | .nearest, .linear => if nextXformWontAffectNearest then some .nearest else none
  | _, _ => none

/-- Tail of FilterResult::applyTransform (lines 1003-1022): give up when the
source image is absent, then concatenate the transform, install the merged
sampling, and map-and-intersect the layer bounds with the desired output
(empty intersection gives the empty result). -/
def transformFinish (res : FilterResult) (ctx : Context) (t : Mat) (smp : Sampling)
    (cnt : ℕ) : FilterResult × ℕ :=
  if res.image.isNone then (.emptyFR, cnt)
  else
    match (mapIRect t res.layerBounds).inter ctx.desiredOutput with
    | none => (.emptyFR, cnt)
    | some nb =>
      ({ res with sampling := smp, transform := t.comp res.transform, layerBounds := nb }, cnt)

/-- FilterResult::applyTransform(transform, sampling) from
SkImageFilterTypes.cpp, lines 962-1023. Returns the result plus the number
of offscreen surfaces created. -/
def applyTransform (fr : FilterResult) (ctx : Context) (t : Mat) (sampling : Sampling) :
    FilterResult × ℕ :=
  if fr.image.isNone || ctx.desiredOutput.isEmpty then (.emptyFR, 0)
  else
    let currentXformIsInteger := (is_nearly_integer_translation fr.transform).isSome
    let nextXformIsInteger := (is_nearly_integer_translation t).isSome
    let nextSampling0 := if nextXformIsInteger then kDefaultSampling else sampling
    let isCropped : Bool :=
      !nextXformIsInteger && (analyzeBounds fr t ctx.desiredOutput).requiresLayerCrop
    let merged : Option Sampling :=
      if isCropped then none
      else compatible_sampling fr.sampling currentXformIsInteger nextSampling0 nextXformIsInteger
    let step : FilterResult × Sampling × ℕ :=
      match merged with
      | some ms => (fr, ms, 0)
      | none =>
        match inverseMapRect t ctx.desiredOutput with
        | some tight =>
          let rr := resolve fr ctx tight false
          (FilterResult.ofPair rr.1, nextSampling0, rr.2)
        | none => (.emptyFR, nextSampling0, 0)
    transformFinish step.1 ctx t step.2.1 step.2.2

/-- Crop normalization in FilterResult::applyCrop (lines 781-797): a decal
crop shrinks to its non-transparent content; a crop covering the whole
desired output downgrades to decal over the output; otherwise, when the crop
holds transparency that the new tiling must reproduce, it is flagged for
preservation (with a one-pixel belt when clamp tiling follows decal).
Returns (preserveTransparencyInCrop, tileMode, fittedCrop, cropContent). -/
def crop_normalize (recvTile tileMode : Tile) (out cc1 fitted0 : IRect) :
    Bool × Tile × IRect × IRect :=
  if tileMode = .decal then (false, tileMode, cc1, cc1)
  else if fitted0.containsR out then (false, .decal, out, cc1)
  else if !(cc1.containsR fitted0) then
    if recvTile = .decal ∧ tileMode = .clamp then
      let cc2 := cc1.outset 1 1
      let f2 := match fitted0.inter cc2 with
                | some x => x
                | none => fitted0
      (true, tileMode, f2, cc2)
    else (true, tileMode, fitted0, cc1)
  else (false, tileMode, fitted0, cc1)

/-- Tail of FilterResult::applyCrop after the periodic collapse (lines
781-837): normalize the crop, try the analytic integer-translation subset
fast path, fall back to the decal layer-bounds restriction or to a resolve
plus retile. -/
def applyCropPost (fr : FilterResult) (ctx : Context) (img : Image)
    (cc1 fitted0 : IRect) (tileMode : Tile) : FilterResult × ℕ :=
  let norm := crop_normalize fr.tileMode tileMode ctx.desiredOutput cc1 fitted0
  let preserve := norm.1
  let tm := norm.2.1
  let fitted := norm.2.2.1
  let doubleClamp : Bool := fr.tileMode = .clamp && tm = .clamp
  let fallback : FilterResult × ℕ :=
    if tm = .decal then ({ fr with layerBounds := fitted }, 0)
    else
      let rr := resolve fr ctx fitted true
      (updateTileMode (FilterResult.ofPair rr.1) ctx tm, rr.2)
  match (if preserve then none else is_nearly_integer_translation fr.transform) with
  | some origin =>
    if doubleClamp || !(analyzeBoundsId fr fitted).hasLayerFillingEffect then
      let eo := extract_subset img origin fitted doubleClamp
      let ro := { FilterResult.ofPair eo with colorFilter := fr.colorFilter }
      (updateTileMode ro ctx tm, 0)
    else fallback
  | none => fallback

/-- FilterResult::applyCrop(crop, tileMode) from SkImageFilterTypes.cpp,
lines 744-838, translated branch for branch: early empties; the relevant
subset of the crop; the periodic single-tile collapse; crop normalization
(decal shrink-to-content, full-coverage downgrade to decal, clamp
transparency belt); the analytic integer-translation fast path; the decal
layer-bounds restriction; and the final resolve plus retile. Returns the
result plus the number of offscreen surfaces created. -/
def applyCrop (fr : FilterResult) (ctx : Context) (crop : IRect) (tileMode : Tile) :
    FilterResult × ℕ :=
  if crop.isEmpty || ctx.desiredOutput.isEmpty then (.emptyFR, 0)
  else
    match fr.image with
    | none => (.emptyFR, 0)
    | some img =>
      match crop.inter fr.layerBounds with
      | none => (.emptyFR, 0)
      | some cc0 =>
        let fitted0 := relevantSubset crop ctx.desiredOutput tileMode
        match cc0.inter fitted0 with
        | none => (.emptyFR, 0)
        | some cc1 =>
          match periodic_axis_transform tileMode fitted0 ctx.desiredOutput with
          | some per => applyTransform fr ctx per kDefaultSampling
          | none => applyCropPost fr ctx img cc1 fitted0 tileMode

/-- FilterResult::applyColorFilter(colorFilter) from SkImageFilterTypes.cpp,
lines 840-906. When the new filter affects transparent black: an empty or
output-disjoint receiver floods the output with the filtered transparent
color from a 1x1 clamped surface; a layer-cropped receiver is resolved
(baking the existing filter) before deferring the new filter with clamp
tiling; otherwise the layer bounds widen to the desired output. When it does
not, the result keeps its shape and the filters compose; the new filter runs
after any existing filter. Returns the result plus surfaces created. -/
def applyColorFilter (fr : FilterResult) (ctx : Context) (cf : ColorFilter) :
    FilterResult × ℕ :=
  if ctx.desiredOutput.isEmpty then (.emptyFR, 0)
  else if cf.affectsTransparentBlack then
    match fr.image, fr.layerBounds.inter ctx.desiredOutput with
    | some _, some nlb =>
      if (analyzeBoundsId fr ctx.desiredOutput).requiresLayerCrop then
        let nlb1 := nlb.outset 1 1
        let nlb2 := match nlb1.inter ctx.desiredOutput with
                    | some x => x
                    | none => nlb1
        let rr := resolve fr ctx nlb2 true
        let filtered := { FilterResult.ofPair rr.1 with colorFilter := some cf }
        (updateTileMode filtered ctx .clamp, rr.2)
      else
        ({ fr with layerBounds := ctx.desiredOutput,
                   colorFilter := some (composeCF cf fr.colorFilter) }, 0)
    | _, _ =>
      let pix := autoSurfaceSnap ctx
        ⟨ctx.desiredOutput.l, ctx.desiredOutput.t,
         ctx.desiredOutput.l + 1, ctx.desiredOutput.t + 1⟩
        (fun _ _ => cf.applyCF 0)
      (updateTileMode (FilterResult.ofPair pix) ctx .clamp, 1)
  else
    match fr.image, fr.layerBounds.inter ctx.desiredOutput with
    | some _, some nlb =>
      ({ fr with layerBounds := nlb,
                 colorFilter := some (composeCF cf fr.colorFilter) }, 0)
    | _, _ => (.emptyFR, 0)

end Skif

namespace Skif

/-- SkNextLog2. Modelled from the spec: the ceiling of log2 (the exponent of
the next power of two at or above n), 0 for n <= 1. -/
def nextLog2 (n : ℕ) : ℕ := if n ≤ 1 then 0 else Nat.log2 (n - 1) + 1

/-- downscale_step_count from SkImageFilterTypes.cpp, lines 1286-1307:
nextLog2(ceil(1/s)) half-x steps, with the final step collapsed when its
scale factor reaches 0.8 (multi-pass) or 1 - kRoundEpsilon (single pass). -/
def downscale_step_count (netScaleFactor : ℚ) : ℕ :=
  let steps := nextLog2 (Int.toNat ⌈1 / netScaleFactor⌉)
  if steps > 0 then
    let finalStepScale : ℚ := netScaleFactor * 2 ^ (steps - 1)
    let limit : ℚ := if steps = 1 then 1 - kRoundEpsilon else 4 / 5
    if finalStepScale ≥ limit then steps - 1 else steps
  else steps

/-- SkMatrix::RectToRect (kFill_ScaleToFit): the scale-translate matrix
taking src onto dst; identity when src is degenerate. -/
def matRectToRect (src dst : QRect) : Mat :=
  if src.width = 0 ∨ src.height = 0 then Mat.I
  else
    let a := dst.width / src.width
    let d := dst.height / src.height
    ⟨a, 0, dst.l - src.l * a, 0, d, dst.t - src.t * d⟩

/-- Loop state of FilterResult::rescale: the current image (none before the
first iteration), its origin, the exact float step bounds, the padded pixel
bounds, the working tile mode, the remaining per-axis steps, and the number
of surfaces created so far. -/
structure RescaleState where
  img : Option Image
  origin : ℤ × ℤ
  sbf : QRect
  spb : IRect
  tm : Tile
  xs : ℕ
  ys : ℕ
  cnt : ℕ

/-- The while loop of FilterResult::rescale (lines 1393-1471), with explicit
fuel (an upper bound on the iteration count; each iteration either consumes a
step or is the single final pass). Each iteration halves (or final-scales)
each axis, rounds out the destination bounds, pads clamp/decal tiling by at
least one pixel (more when fractional rounding requires it), renders into a
new surface, and switches decal to clamp once the transparent belt is baked.
The pixel content of the intermediate surfaces is not observed by any claim
settled here and is abstracted as the cleared surface. -/
def rescaleLoop (ctx : Context) (scale : ℚ × ℚ) (srcRect : IRect) :
    ℕ → RescaleState → RescaleState
  | 0, st => st
  | fuel + 1, st =>
    if st.img.isSome ∧ st.xs = 0 ∧ st.ys = 0 then st
    else
      let sxp : ℚ × ℕ :=
        if st.xs > 0 then
          ((if st.xs > 1 then (1 : ℚ) / 2 else ((srcRect.width : ℚ) * scale.1) / st.sbf.width),
           st.xs - 1)
        else (1, st.xs)
      let syp : ℚ × ℕ :=
        if st.ys > 0 then
          ((if st.ys > 1 then (1 : ℚ) / 2 else ((srcRect.height : ℚ) * scale.2) / st.sbf.height),
           st.ys - 1)
        else (1, st.ys)
      let dbf : QRect := ⟨0, 0, st.sbf.width * sxp.1, st.sbf.height * syp.1⟩
      let dpb0 : IRect := RoundOut dbf
      let dpb : IRect :=
        if st.tm = .clamp ∨ st.tm = .decal then
          let srcFracX : ℚ := (st.spb.r : ℚ) - st.sbf.r - 1 / 2
          let dstFracX : ℚ := (dpb0.r : ℚ) - dbf.r - 1 / 2
          let padX : ℤ := max 1 ⌈sxp.1 * srcFracX - dstFracX⌉
          let srcFracY : ℚ := (st.spb.b : ℚ) - st.sbf.b - 1 / 2
          let dstFracY : ℚ := (dpb0.b : ℚ) - dbf.b - 1 / 2
          let padY : ℤ := max 1 ⌈syp.1 * srcFracY - dstFracY⌉
          dpb0.outset padX padY
        else dpb0
      let snap := autoSurfaceSnap ctx dpb (fun _ _ => 0)
      match snap.1 with
      | none => { st with img := none, xs := 0, ys := 0, cnt := st.cnt + 1 }
      | some ni =>
        rescaleLoop ctx scale srcRect fuel
          { img := some ni, origin := snap.2, sbf := dbf, spb := dpb,
            tm := if st.tm = .decal then .clamp else st.tm,
            xs := sxp.2, ys := syp.2, cnt := st.cnt + 1 }

/-- Tail of FilterResult::rescale (lines 1473-1490): wrap the downscaled
image as a FilterResult whose transform maps it back onto the source rect in
layer resolution, restore the visible layer bounds, and set the tile mode
(decal when enforced). A failed loop yields the empty result. -/
def rescaleFinish (st : RescaleState) (srcRect visible : IRect) (enforceDecal : Bool) :
    FilterResult × ℕ :=
  match st.img with
  | none => (.emptyFR, st.cnt)
  | some i =>
    let fr0 := FilterResult.ofPair (some i, st.origin)
    ({ fr0 with
         transform := (matRectToRect st.sbf (QRect.ofIRect srcRect)).comp fr0.transform,
         layerBounds := visible,
         tileMode := if enforceDecal then .decal else st.tm },
     st.cnt)

/-- FilterResult::rescale(scale, enforceDecal) from SkImageFilterTypes.cpp,
lines 1314-1491: empty / non-positive-scale early outs; step counts; source
rectangle and tile-mode selection (deferring visible tiling when possible);
the zero-step, no-effect extract shortcut; the downscale loop; and the
final wrap with a transform back to layer resolution, the visible layer
bounds, and the decal override. Returns the result plus surfaces created. -/
def rescale (fr : FilterResult) (ctx : Context) (scale : ℚ × ℚ) (enforceDecal : Bool) :
    FilterResult × ℕ :=
  match fr.image, fr.layerBounds.inter ctx.desiredOutput with
  | some img, some visible =>
    if scale.1 ≤ 0 ∨ scale.2 ≤ 0 then (.emptyFR, 0)
    else
      let xSteps := downscale_step_count scale.1
      let ySteps := downscale_step_count scale.2
      let pa := is_nearly_integer_translation fr.transform
      let origin0 := pa.getD (0, 0)
      let analysis := analyzeBoundsId fr ctx.desiredOutput
      let canDeferTiling : Bool :=
        pa.isSome && !analysis.requiresLayerCrop &&
          !(enforceDecal && analysis.hasLayerFillingEffect)
      let hasEffects : Bool :=
        !canDeferTiling || fr.colorFilter.isSome ||
          decide (img.colorType ≠ ctx.colorType) || decide (img.colorSpace ≠ ctx.colorSpace)
      if xSteps = 0 ∧ ySteps = 0 ∧ !hasEffects then
        if analysis.hasLayerFillingEffect then ({ fr with layerBounds := visible }, 0)
        else (FilterResult.ofPair (extract_subset img origin0 visible false), 0)
      else
        let src0 : IRect × Tile :=
          if canDeferTiling ∧ analysis.hasLayerFillingEffect then
            (IRect.atOrigin origin0.1 origin0.2 img.width img.height, fr.tileMode)
          else (visible, .decal)
        let srcRect := relevantSubset src0.1 ctx.desiredOutput src0.2
        if srcRect.isEmpty then (.emptyFR, 0)
        else
          let st0 : RescaleState :=
            ⟨none, origin0, QRect.ofIRect srcRect, srcRect.outset 1 1, src0.2,
             xSteps, ySteps, 0⟩
          rescaleFinish (rescaleLoop ctx scale srcRect (xSteps + ySteps + 1) st0)
            srcRect visible enforceDecal
  | _, _ => (.emptyFR, 0)

end Skif

namespace Skif

/-! Small arithmetic and rectangle lemmas shared by the claim theorems. -/

theorem floor_intCast_add_eps (n : ℤ) : ⌊(n : ℚ) + kRoundEpsilon⌋ = n := by
  rw [add_comm, Int.floor_add_int]
  norm_num [kRoundEpsilon]

theorem ceil_intCast_sub_eps (n : ℤ) : ⌈(n : ℚ) - kRoundEpsilon⌉ = n := by
  rw [sub_eq_neg_add, Int.ceil_add_int]
  norm_num [kRoundEpsilon]

theorem roundQ_intCast (n : ℤ) : roundQ (n : ℚ) = n := by
  unfold roundQ
  rw [add_comm, Int.floor_add_int]
  norm_num

end Skif

namespace Skif

theorem inter_some_bounds {x y z : IRect} (h : x.inter y = some z) :
    z = ⟨max x.l y.l, max x.t y.t, min x.r y.r, min x.b y.b⟩ ∧ z.isEmpty = false := by
  simp only [IRect.inter] at h
  split at h
  · exact absurd h (by simp)
  · rename_i hne
    have hz := Option.some.inj h
    refine ⟨hz.symm, ?_⟩
    rw [← hz]
    simpa using hne

theorem inter_subsetOf_right {x y z : IRect} (h : x.inter y = some z) : z.subsetOf y := by
  obtain ⟨hz, _⟩ := inter_some_bounds h
  subst hz
  right
  refine ⟨le_max_right _ _, le_max_right _ _, min_le_right _ _, min_le_right _ _⟩

theorem inter_subsetOf_left {x y z : IRect} (h : x.inter y = some z) : z.subsetOf x := by
  obtain ⟨hz, _⟩ := inter_some_bounds h
  subst hz
  right
  refine ⟨le_max_left _ _, le_max_left _ _, min_le_left _ _, min_le_left _ _⟩

theorem inter_nonempty {x y z : IRect} (h : x.inter y = some z) : z.isEmpty = false :=
  (inter_some_bounds h).2

theorem subsetOf_refl (x : IRect) : x.subsetOf x :=
  Or.inr ⟨le_refl _, le_refl _, le_refl _, le_refl _⟩

theorem subsetOf_trans {x y z : IRect} (h1 : x.subsetOf y) (h2 : y.subsetOf z) :
    x.subsetOf z := by
  unfold IRect.subsetOf IRect.isEmpty at h1 h2 ⊢
  simp only [Bool.or_eq_true, decide_eq_true_eq] at h1 h2 ⊢
  rcases h1 with h1 | h1
  · exact Or.inl h1
  · rcases h2 with h2 | h2
    · exact Or.inl (by omega)
    · exact Or.inr (by omega)

theorem emptyR_subsetOf (y : IRect) : IRect.emptyR.subsetOf y := Or.inl (by decide)

theorem inter_of_subset {x z : IRect} (hz : z.isEmpty = false)
    (h : x.l ≤ z.l ∧ x.t ≤ z.t ∧ z.r ≤ x.r ∧ z.b ≤ x.b) : x.inter z = some z := by
  simp only [IRect.inter]
  have e1 : max x.l z.l = z.l := max_eq_right h.1
  have e2 : max x.t z.t = z.t := max_eq_right h.2.1
  have e3 : min x.r z.r = z.r := min_eq_right h.2.2.1
  have e4 : min x.b z.b = z.b := min_eq_right h.2.2.2
  simp only [e1, e2, e3, e4]
  have hzz : (⟨z.l, z.t, z.r, z.b⟩ : IRect) = z := by cases z; rfl
  rw [hzz, if_neg (by simp [hz])]

theorem atOrigin_self (x : IRect) : IRect.atOrigin x.l x.t x.width x.height = x := by
  cases x
  simp [IRect.atOrigin, IRect.width, IRect.height]

end Skif

namespace Skif

/-- Spec-side restatement of the rescale step-count rule (C2), following the
claim words: nextLog2(ceil(1/s)) steps, reduced by one when the final step
scale meets the collapse limit (0.8 multi-pass, 1 - epsilon single-pass). -/
def downscale_spec_formula (s : ℚ) : ℕ :=
  let n := nextLog2 (Int.toNat ⌈1 / s⌉)
  let finalStep : ℚ := s * 2 ^ (n - 1)
  let limit : ℚ := if n = 1 then 1 - kRoundEpsilon else 4 / 5
  if 0 < n ∧ finalStep ≥ limit then n - 1 else n

/-- C2 counterexample: the claim asserts downscale_step_count(0.81) = 0, but
the code keeps one step, because a single-pass chain collapses only when the
final scale is within kRoundEpsilon of the identity and 0.81 < 1 - 1/1000. -/
theorem downscale_step_count_081_not_zero :
    downscale_step_count (81 / 100) = 1 ∧ downscale_step_count (81 / 100) ≠ 0 := by
  constructor
  · with_unfolding_all decide
  · with_unfolding_all decide

/-- C2 (amended): downscale_step_count(s) follows the nextLog2 / collapse-limit
formula for every positive scale, with downscale_step_count(0.1) = 3,
downscale_step_count(0.49) = 1, and downscale_step_count(0.81) = 1 (not 0 as
the spec example says: the single-pass limit is 1 - epsilon, not 0.8). -/
theorem downscale_step_count_spec :
    (∀ s : ℚ, 0 < s → downscale_step_count s = downscale_spec_formula s) ∧
    downscale_step_count (1 / 10) = 3 ∧
    downscale_step_count (49 / 100) = 1 ∧
    downscale_step_count (81 / 100) = 1 := by
  refine ⟨?_, by with_unfolding_all decide, by with_unfolding_all decide,
          by with_unfolding_all decide⟩
  intro s _
  unfold downscale_step_count downscale_spec_formula
  by_cases h : nextLog2 (Int.toNat ⌈1 / s⌉) > 0
  · rw [if_pos h]
    by_cases h2 : s * 2 ^ (nextLog2 (Int.toNat ⌈1 / s⌉) - 1) ≥
        (if nextLog2 (Int.toNat ⌈1 / s⌉) = 1 then 1 - kRoundEpsilon else 4 / 5)
    · rw [if_pos h2, if_pos ⟨h, h2⟩]
    · rw [if_neg h2, if_neg (by tauto)]
  · rw [if_neg h, if_neg (by tauto)]

/-- C2 witness: the general conjunct instantiated at the positive scale 1/2. -/
theorem downscale_step_count_spec_witness :
    0 < (1 / 2 : ℚ) ∧ downscale_step_count (1 / 2) = downscale_spec_formula (1 / 2) :=
  ⟨by norm_num, downscale_step_count_spec.1 (1 / 2) (by norm_num)⟩

/-- C10: inverseMapRect succeeds with the empty rectangle on every empty input
regardless of the matrix, and fails on a scale-translate matrix with a zero
scale factor and a non-empty input. -/
theorem inverseMapRect_empty_and_zero_scale :
    (∀ (m : Mat) (rect : IRect), rect.isEmpty = true →
       inverseMapRect m rect = some IRect.emptyR) ∧
    (∀ (m : Mat) (rect : IRect), m.isScaleTranslate = true → (m.sx = 0 ∨ m.sy = 0) →
       rect.isEmpty = false → inverseMapRect m rect = none) := by
  constructor
  · intro m rect h
    unfold inverseMapRect
    rw [if_pos h]
  · intro m rect hst hz hne
    unfold inverseMapRect
    rw [if_neg (by simp [hne]), if_pos hst, if_pos hz]

/-- C10 witness: a zero-x-scale matrix on an empty and on a non-empty rect. -/
theorem inverseMapRect_empty_and_zero_scale_witness :
    inverseMapRect (Mat.scaleTranslate 0 1 2 3) ⟨5, 5, 0, 0⟩ = some IRect.emptyR ∧
    inverseMapRect (Mat.scaleTranslate 0 1 2 3) ⟨0, 0, 5, 5⟩ = none :=
  ⟨inverseMapRect_empty_and_zero_scale.1 (Mat.scaleTranslate 0 1 2 3) ⟨5, 5, 0, 0⟩
     (by decide),
   inverseMapRect_empty_and_zero_scale.2 (Mat.scaleTranslate 0 1 2 3) ⟨0, 0, 5, 5⟩
     (by decide) (Or.inl (by norm_num [Mat.scaleTranslate])) (by decide)⟩

end Skif

namespace Skif

/-- All four coordinates lie in the int32 range (SkIRect always satisfies
this; the model uses unbounded integers, so the saturation hypotheses are
made explicit). -/
def IRect.in32 (x : IRect) : Prop :=
  -(2 ^ 31) ≤ x.l ∧ x.l ≤ 2 ^ 31 - 1 ∧ -(2 ^ 31) ≤ x.t ∧ x.t ≤ 2 ^ 31 - 1 ∧
  -(2 ^ 31) ≤ x.r ∧ x.r ≤ 2 ^ 31 - 1 ∧ -(2 ^ 31) ≤ x.b ∧ x.b ≤ 2 ^ 31 - 1

theorem sat32_id {n : ℤ} (h1 : -(2 ^ 31) ≤ n) (h2 : n ≤ 2 ^ 31 - 1) : sat32 n = n := by
  unfold sat32
  omega

theorem scaleTranslate_invert {a d dx dy : ℚ} (ha : a ≠ 0) (hd : d ≠ 0) :
    (Mat.scaleTranslate a d dx dy).invert =
      some (Mat.scaleTranslate a⁻¹ d⁻¹ (-(dx / a)) (-(dy / d))) := by
  unfold Mat.invert Mat.scaleTranslate Mat.det
  rw [if_neg (by simp [ha, hd])]
  simp only [Option.some.injEq, Mat.mk.injEq]
  refine ⟨by field_simp <;> ring, by field_simp <;> ring, by field_simp <;> ring,
          by field_simp <;> ring, by field_simp <;> ring, by field_simp <;> ring⟩

theorem scaleTranslate_comp_invert {a d dx dy : ℚ} (ha : a ≠ 0) (hd : d ≠ 0) :
    (Mat.scaleTranslate a d dx dy).comp
      (Mat.scaleTranslate a⁻¹ d⁻¹ (-(dx / a)) (-(dy / d))) = Mat.I := by
  unfold Mat.comp Mat.scaleTranslate Mat.I
  simp only [Mat.mk.injEq]
  refine ⟨by field_simp, by ring, by field_simp <;> ring,
          by ring, by field_simp, by field_simp <;> ring⟩

theorem mapIRect_I {rect : IRect} (hne : rect.isEmpty = false) (h32 : rect.in32) :
    mapIRect Mat.I rect = rect := by
  unfold mapIRect
  rw [if_neg (by simp [hne])]
  rw [if_pos (by decide)]
  have hlr : (rect.l : ℚ) < rect.r := by
    have := (by simpa [IRect.isEmpty, not_or] using hne : ¬rect.r ≤ rect.l ∧ ¬rect.b ≤ rect.t).1
    exact_mod_cast lt_of_not_le this
  have htb : (rect.t : ℚ) < rect.b := by
    have := (by simpa [IRect.isEmpty, not_or] using hne : ¬rect.r ≤ rect.l ∧ ¬rect.b ≤ rect.t).2
    exact_mod_cast lt_of_not_le this
  simp only [Mat.I, one_mul, add_zero]
  simp only [min_eq_left hlr.le, min_eq_left htb.le, max_eq_right hlr.le, max_eq_right htb.le]
  rw [floor_intCast_add_eps, floor_intCast_add_eps, ceil_intCast_sub_eps, ceil_intCast_sub_eps]
  obtain ⟨a1, a2, a3, a4, a5, a6, a7, a8⟩ := h32
  rw [sat32_id a1 a2, sat32_id a3 a4, sat32_id a5 a6, sat32_id a7 a8]

/-- C8 counterexample: the round-trip claim fails for an empty input
rectangle: map<SkIRect> collapses every empty rect to the canonical
MakeEmpty rect, so (1,1,0,0) does not come back unchanged even though
M times its inverse is the identity. -/
theorem mapIRect_roundtrip_empty_cex :
    (Mat.scaleTranslate 2 2 0 0).invert = some (Mat.scaleTranslate (1 / 2) (1 / 2) 0 0) ∧
    mapIRect ((Mat.scaleTranslate 2 2 0 0).comp (Mat.scaleTranslate (1 / 2) (1 / 2) 0 0))
        ⟨1, 1, 0, 0⟩ = IRect.emptyR ∧
    (⟨1, 1, 0, 0⟩ : IRect) ≠ IRect.emptyR := by
  refine ⟨by with_unfolding_all decide, by with_unfolding_all decide, by decide⟩

/-- C8 (amended): Mapping::map<SkIRect> through M times M-inverse returns the
rect exactly for every non-empty integer rectangle in int32 range and every
scale-translate M with nonzero scales; an empty rect instead maps to the
canonical empty rect. -/
theorem mapIRect_roundtrip (a d dx dy : ℚ) (rect : IRect) (minv : Mat)
    (ha : a ≠ 0) (hd : d ≠ 0)
    (hinv : (Mat.scaleTranslate a d dx dy).invert = some minv)
    (hne : rect.isEmpty = false) (h32 : rect.in32) :
    mapIRect ((Mat.scaleTranslate a d dx dy).comp minv) rect = rect := by
  rw [scaleTranslate_invert ha hd] at hinv
  have hm := Option.some.inj hinv
  rw [← hm, scaleTranslate_comp_invert ha hd]
  exact mapIRect_I hne h32

/-- C8 witness: the round-trip at M = scale(2,3) translate(5,7) on (1,2,4,9). -/
theorem mapIRect_roundtrip_witness :
    mapIRect ((Mat.scaleTranslate 2 3 5 7).comp
      (Mat.scaleTranslate (1 / 2) (1 / 3) (-(5 / 2)) (-(7 / 3)))) ⟨1, 2, 4, 9⟩ =
      ⟨1, 2, 4, 9⟩ :=
  mapIRect_roundtrip 2 3 5 7 ⟨1, 2, 4, 9⟩ _ (by norm_num) (by norm_num)
    (by rw [scaleTranslate_invert (by norm_num) (by norm_num)]; norm_num)
    (by decide) (by unfold IRect.in32; decide)

end Skif

namespace Skif

/-- Concrete 10x10 image at the origin whose pixels are all 1 (opaque). -/
def chkImg : Image := ⟨fun _ _ => 1, ⟨0, 0, 10, 10⟩, 10, 10, 0, 0⟩

/-- FilterResult wrapping chkImg at the origin: identity transform, default
sampling, decal tiling, no color filter, layer bounds equal to the image. -/
def chkFR : FilterResult :=
  ⟨some chkImg, Mat.I, kDefaultSampling, .decal, none, ⟨0, 0, 10, 10⟩⟩

/-- Context with desired output [0,0,10,10] matching chkImg. -/
def c3ctx : Context := ⟨⟨0, 0, 10, 10⟩, 0, 0⟩

/-- A clamp-tiled receiver produced by applyCrop in c3ctx (its layer bounds
equal the desired output, as updateTileMode guarantees). -/
def c3recv : FilterResult := (applyCrop chkFR c3ctx ⟨0, 0, 5, 5⟩ .clamp).1

/-- The receiver translated by (5,5) via applyTransform in the same context. -/
def c3res : FilterResult :=
  (applyTransform c3recv c3ctx (Mat.translateM 5 5) kDefaultSampling).1

/-- C3 counterexample: applyTransform in c3ctx yields a non-empty result with
clamp tiling and no color filter whose layerBounds [5,5,10,10] is a proper
subset of the desired output [0,0,10,10]: the fold path maps the layer
bounds by the translation and intersects with the output instead of
re-widening them. -/
theorem layer_bounds_invariant_cex :
    c3res.image.isSome = true ∧ c3res.tileMode ≠ Tile.decal ∧
    cfAffectsTB c3res.colorFilter = false ∧
    c3res.layerBounds = ⟨5, 5, 10, 10⟩ ∧ c3res.layerBounds ≠ c3ctx.desiredOutput := by
  refine ⟨?_, ?_, ?_, ?_, ?_⟩ <;> with_unfolding_all decide

/-- C3 (amended): whenever an operation installs a non-Decal tile mode through
updateTileMode (the tiling branches of applyCrop and the transparent-black
branches of applyColorFilter), the non-empty result's layerBounds equals the
Context's desired output; operations that merely inherit a non-Decal tile
mode (applyTransform, and applyCrop's decal/periodic branches) can leave
layerBounds a proper subset of the desired output. -/
theorem updateTileMode_layer_bounds (fr : FilterResult) (ctx : Context) (tm : Tile)
    (htm : tm ≠ Tile.decal) (himg : (updateTileMode fr ctx tm).image.isSome = true) :
    (updateTileMode fr ctx tm).layerBounds = ctx.desiredOutput := by
  unfold updateTileMode at himg ⊢
  by_cases h : fr.image.isSome = true
  · rw [if_pos h]
    simp [htm]
  · rw [if_neg h] at himg
    exact absurd himg h

/-- C3 witness: updateTileMode with clamp on the concrete receiver. -/
theorem updateTileMode_layer_bounds_witness :
    (updateTileMode chkFR c3ctx Tile.clamp).layerBounds = c3ctx.desiredOutput :=
  updateTileMode_layer_bounds chkFR c3ctx Tile.clamp (by decide)
    (by with_unfolding_all decide)

/-- C5: applyCrop returns the empty FilterResult (no image, no color filter,
empty layer bounds, no surfaces allocated) whenever the crop is empty, the
desired output is empty, the receiver has no image, or the crop misses the
receiver's layer bounds. -/
theorem applyCrop_empty_inputs (fr : FilterResult) (ctx : Context) (crop : IRect) (tm : Tile)
    (h : crop.isEmpty = true ∨ ctx.desiredOutput.isEmpty = true ∨ fr.image = none ∨
         crop.inter fr.layerBounds = none) :
    applyCrop fr ctx crop tm = (FilterResult.emptyFR, 0) ∧
    FilterResult.emptyFR.colorFilter = none ∧
    FilterResult.emptyFR.layerBounds.isEmpty = true := by
  refine ⟨?_, rfl, by decide⟩
  unfold applyCrop
  rcases h with h | h | h | h
  · rw [if_pos (by simp [h])]
  · rw [if_pos (by simp [h])]
  · by_cases h1 : (crop.isEmpty || ctx.desiredOutput.isEmpty) = true
    · rw [if_pos h1]
    · rw [if_neg h1]
      simp only [h]
  · by_cases h1 : (crop.isEmpty || ctx.desiredOutput.isEmpty) = true
    · rw [if_pos h1]
    · rw [if_neg h1]
      cases himg : fr.image with
      | none => simp only []
      | some img => simp only [h]

/-- C5 witness: an empty crop on the concrete receiver. -/
theorem applyCrop_empty_inputs_witness :
    applyCrop chkFR c3ctx ⟨3, 3, 3, 8⟩ Tile.repeatT = (FilterResult.emptyFR, 0) ∧
    FilterResult.emptyFR.colorFilter = none ∧
    FilterResult.emptyFR.layerBounds.isEmpty = true :=
  applyCrop_empty_inputs chkFR c3ctx ⟨3, 3, 3, 8⟩ Tile.repeatT (Or.inl (by decide))

end Skif

namespace Skif

/-- C7: when applyColorFilter defers the new filter (the receiver is visible
in the desired output and, for a transparent-black-affecting filter, no layer
crop is pending), the result carries SkColorFilters::Compose(cf, existing),
in which the new filter runs after the existing one. -/
theorem applyColorFilter_compose_order (fr : FilterResult) (ctx : Context)
    (cf f : ColorFilter) (i : Image) (nlb : IRect)
    (hout : ctx.desiredOutput.isEmpty = false)
    (himg : fr.image = some i)
    (hf : fr.colorFilter = some f)
    (hnlb : fr.layerBounds.inter ctx.desiredOutput = some nlb)
    (hbranch : cf.affectsTransparentBlack = false ∨
               (analyzeBoundsId fr ctx.desiredOutput).requiresLayerCrop = false) :
    (applyColorFilter fr ctx cf).1.colorFilter = some (composeCF cf (some f)) ∧
    ∀ x : ℚ, (composeCF cf (some f)).applyCF x = cf.applyCF (f.applyCF x) := by
  refine ⟨?_, fun x => rfl⟩
  unfold applyColorFilter
  rw [if_neg (by simp [hout])]
  by_cases htb : cf.affectsTransparentBlack = true
  · rw [if_pos htb]
    have hrlc : (analyzeBoundsId fr ctx.desiredOutput).requiresLayerCrop = false := by
      rcases hbranch with hb | hb
      · rw [htb] at hb; exact absurd hb (by simp)
      · exact hb
    simp only [himg, hnlb]
    rw [if_neg (by simp [hrlc])]
    simp [hf]
  · rw [if_neg htb]
    simp only [himg, hnlb]
    simp [hf]

/-- A color filter that adds one to the channel (affects transparent black). -/
def c7f : ColorFilter := ⟨fun x => x + 1, true⟩

/-- A color filter that doubles the channel (transparent black is fixed). -/
def c7g : ColorFilter := ⟨fun x => x * 2, false⟩

/-- chkFR carrying c7f as its existing color filter. -/
def c7fr : FilterResult := { chkFR with colorFilter := some c7f }

/-- C7 witness: composing c7g after c7f on the concrete receiver. -/
theorem applyColorFilter_compose_order_witness :
    (applyColorFilter c7fr c3ctx c7g).1.colorFilter = some (composeCF c7g (some c7f)) ∧
    ∀ x : ℚ, (composeCF c7g (some c7f)).applyCF x = c7g.applyCF (c7f.applyCF x) :=
  applyColorFilter_compose_order c7fr c3ctx c7g c7f chkImg ⟨0, 0, 10, 10⟩
    (by decide) rfl rfl (by decide) (Or.inl rfl)

end Skif

namespace Skif

/-- Image whose pixel value encodes its coordinates (x + 10y), for pinpointing
which texel a result samples. -/
def c6img : Image := ⟨fun x y => x + 10 * y, ⟨0, 0, 10, 10⟩, 10, 10, 0, 0⟩

/-- FilterResult wrapping c6img at the origin. -/
def c6fr : FilterResult :=
  ⟨some c6img, Mat.I, kDefaultSampling, .decal, none, ⟨0, 0, 10, 10⟩⟩

/-- Context whose desired output [20,20,30,30] is disjoint from c6img. -/
def c6ctx : Context := ⟨⟨20, 20, 30, 30⟩, 0, 0⟩

/-- The clamp crop of the full image evaluated with the disjoint output. -/
def c6res : FilterResult × ℕ := applyCrop c6fr c6ctx ⟨0, 0, 10, 10⟩ .clamp

/-- C6 counterexample: applyCrop([20,20,30,30], Clamp) on the 10x10 image at
the origin returns the empty FilterResult (the crop misses the layer bounds
entirely, so the cropped content is transparent and clamp-tiling it stays
transparent); it does not represent pixel (9,9) (whose value is 99) stretched
over the crop. -/
theorem clamp_disjoint_crop_cex :
    ((applyCrop c6fr ⟨⟨0, 0, 30, 30⟩, 0, 0⟩ ⟨20, 20, 30, 30⟩ .clamp).1.image).isNone = true ∧
    denote ((applyCrop c6fr ⟨⟨0, 0, 30, 30⟩, 0, 0⟩ ⟨20, 20, 30, 30⟩ .clamp).1) (25, 25) = 0 ∧
    c6img.texel 9 9 = 99 := by
  refine ⟨?_, ?_, ?_⟩ <;> with_unfolding_all decide

/-- C6 (amended): relevantSubset behaves as claimed (decal restricts to the
intersection and collapses a disjoint pair to empty; clamp keeps the
intersection or, when disjoint, the closest row/column/corner; repeat and
mirror keep the source). The pixel-(9,9)-stretched-over-[20,20,30,30] result
arises for applyCrop([0,0,10,10], Clamp) evaluated with desired output
[20,20,30,30] (crop and output were swapped in the spec example; the spec's
literal applyCrop([20,20,30,30], Clamp) is empty, see the counterexample):
that call extracts the single pixel at (9,9), clamp-tiles it, sets the layer
bounds to the output, and its logical image over the output reads texel
(9,9). -/
theorem relevantSubset_spec :
    (∀ src dst : IRect, relevantSubset src dst .decal = (src.inter dst).getD IRect.emptyR) ∧
    (∀ src dst : IRect,
       relevantSubset src dst .clamp = (src.inter dst).getD (closestDisjointEdge src dst)) ∧
    (∀ src dst : IRect, relevantSubset src dst .repeatT = src) ∧
    (∀ src dst : IRect, relevantSubset src dst .mirror = src) ∧
    (c6res.2 = 0 ∧
     (c6res.1.image.map Image.subset) = some ⟨9, 9, 10, 10⟩ ∧
     c6res.1.transform = Mat.translateM 9 9 ∧
     c6res.1.tileMode = Tile.clamp ∧
     c6res.1.layerBounds = c6ctx.desiredOutput ∧
     denote c6res.1 (25, 25) = c6img.texel 9 9 ∧
     denote c6res.1 (29, 21) = c6img.texel 9 9) := by
  refine ⟨?_, ?_, fun _ _ => rfl, fun _ _ => rfl, ?_⟩
  · intro src dst
    cases hi : src.inter dst <;> simp [relevantSubset, hi]
  · intro src dst
    cases hi : src.inter dst <;> simp [relevantSubset, hi]
  · refine ⟨?_, ?_, ?_, ?_, ?_, ?_, ?_⟩ <;> with_unfolding_all decide

end Skif

namespace Skif

/-- Context for the single-period mirror example: desired output
[-10,-10,0,0], one mirror period to the upper-left of the 10x10 image. -/
def c4ctx : Context := ⟨⟨-10, -10, 0, 0⟩, 0, 0⟩

/-- applyCrop([0,0,10,10], Mirror) on chkFR with output [-10,-10,0,0]. -/
def c4res : FilterResult × ℕ := applyCrop chkFR c4ctx ⟨0, 0, 10, 10⟩ .mirror

/-- C4 counterexample: the single-period mirror example produces the transform
scale(-1,-1) with translation (0,0) (x maps to -x, sending [0,10) onto
(-10,0]), not scale(-1,-1) translate(10,10) as the claim states (that matrix
maps [0,10) onto itself and misses the desired output entirely). -/
theorem single_period_mirror_cex :
    c4res.1.transform = Mat.scaleTranslate (-1) (-1) 0 0 ∧
    c4res.1.transform ≠ Mat.scaleTranslate (-1) (-1) 10 10 := by
  constructor <;> with_unfolding_all decide

/-- C4 (amended): when the fitted crop of a Repeat/Mirror applyCrop covers
the desired output within one period per axis and the exact translation
round-trips as a float (all encoded by periodic_axis_transform returning a
matrix), applyCrop delegates to applyTransform on that matrix, which is
axis-aligned with per-axis scales of +-1 (negative exactly on odd mirror
periods); no new offscreen surface is materialized when applyTransform can
fold the transform, as in the 10x10 mirror example, which yields zero new
surfaces and the transform scale(-1,-1) with zero translation. -/
theorem periodic_collapse_applyTransform :
    (∀ (fr : FilterResult) (ctx : Context) (crop : IRect) (tm : Tile) (img : Image)
       (cc0 cc1 : IRect) (per : Mat),
       crop.isEmpty = false → ctx.desiredOutput.isEmpty = false →
       fr.image = some img →
       crop.inter fr.layerBounds = some cc0 →
       cc0.inter (relevantSubset crop ctx.desiredOutput tm) = some cc1 →
       periodic_axis_transform tm (relevantSubset crop ctx.desiredOutput tm)
           ctx.desiredOutput = some per →
       applyCrop fr ctx crop tm = applyTransform fr ctx per kDefaultSampling ∧
       per.kx = 0 ∧ per.ky = 0 ∧ (per.sx = 1 ∨ per.sx = -1) ∧ (per.sy = 1 ∨ per.sy = -1)) ∧
    (c4res.2 = 0 ∧ c4res.1.image.isSome = true ∧
     c4res.1.transform = Mat.scaleTranslate (-1) (-1) 0 0 ∧
     c4res.1.tileMode = Tile.decal ∧
     c4res.1.layerBounds = c4ctx.desiredOutput) := by
  constructor
  · intro fr ctx crop tm img cc0 cc1 per h1 h2 himg hcc0 hcc1 hper
    constructor
    · unfold applyCrop
      rw [if_neg (by simp [h1, h2])]
      simp only [himg, hcc0, hcc1, hper]
    · unfold periodic_axis_transform at hper
      simp only [] at hper
      split_ifs at hper
      all_goals try exact Option.noConfusion hper
      all_goals (rw [← Option.some.inj hper]; exact ⟨rfl, rfl,
        by norm_num [Mat.scaleTranslate], by norm_num [Mat.scaleTranslate]⟩)
  · refine ⟨?_, ?_, ?_, ?_, ?_⟩ <;> with_unfolding_all decide

/-- C4 witness: the general collapse applied to the mirror example. -/
theorem periodic_collapse_applyTransform_witness :
    applyCrop chkFR c4ctx ⟨0, 0, 10, 10⟩ .mirror =
      applyTransform chkFR c4ctx (Mat.scaleTranslate (-1) (-1) 0 0) kDefaultSampling ∧
    (Mat.scaleTranslate (-1) (-1) 0 0).kx = 0 ∧
    (Mat.scaleTranslate (-1) (-1) 0 0).ky = 0 ∧
    ((Mat.scaleTranslate (-1) (-1) 0 0).sx = 1 ∨ (Mat.scaleTranslate (-1) (-1) 0 0).sx = -1) ∧
    ((Mat.scaleTranslate (-1) (-1) 0 0).sy = 1 ∨ (Mat.scaleTranslate (-1) (-1) 0 0).sy = -1) :=
  periodic_collapse_applyTransform.1 chkFR c4ctx ⟨0, 0, 10, 10⟩ .mirror chkImg
    ⟨0, 0, 10, 10⟩ ⟨0, 0, 10, 10⟩ (Mat.scaleTranslate (-1) (-1) 0 0)
    (by decide) (by decide) rfl (by with_unfolding_all decide)
    (by with_unfolding_all decide) (by with_unfolding_all decide)

end Skif

namespace Skif

/-- C1 counterexample context: desired output one full period up-left-shifted
from the 10x10 crop. -/
def c1ctx : Context := ⟨⟨10, 10, 20, 20⟩, 0, 0⟩

/-- One repeat-crop application: the periodic collapse folds to a translation
by (10,10), clipped to the desired output. -/
def c1once : FilterResult := (applyCrop chkFR c1ctx ⟨0, 0, 10, 10⟩ .repeatT).1

/-- The same repeat crop applied to the first result. -/
def c1twice : FilterResult := (applyCrop c1once c1ctx ⟨0, 0, 10, 10⟩ .repeatT).1

/-- C1 counterexample: applying applyCrop([0,0,10,10], Repeat) twice in the
context with desired output [10,10,20,20] is not equivalent to applying it
once: the first application clips its layer bounds to the output
([10,10,20,20], disjoint from the crop rect), so the second application finds
no content inside the crop and returns the empty result, while the single
application shows the tiled image (value 1 at pixel (10,10)). -/
theorem applyCrop_idempotence_cex :
    denote c1once (10, 10) = 1 ∧ denote c1twice (10, 10) = 0 ∧
    c1twice.image.isNone = true ∧ c1once.image.isNone = false := by
  refine ⟨?_, ?_, ?_, ?_⟩ <;> with_unfolding_all decide

/-- relevantSubset with decal equals the intersection, empty when disjoint. -/
theorem relevantSubset_decal_eq (s d : IRect) :
    relevantSubset s d .decal = (s.inter d).getD IRect.emptyR := by
  cases hi : s.inter d <;> simp [relevantSubset, hi]

/-- relevantSubset with decal stays inside the destination. -/
theorem relevantSubset_decal_subsetOf (s d : IRect) :
    (relevantSubset s d .decal).subsetOf d := by
  rw [relevantSubset_decal_eq]
  cases hi : s.inter d
  · simp only [Option.getD_none]
    exact emptyR_subsetOf d
  · simp only [Option.getD_some]
    exact inter_subsetOf_right hi

theorem makeSubset_width (img : Image) (s : IRect) :
    (img.makeSubset s).width = s.width := by
  simp only [Image.makeSubset, Image.width, IRect.width]
  ring

theorem makeSubset_height (img : Image) (s : IRect) :
    (img.makeSubset s).height = s.height := by
  simp only [Image.makeSubset, Image.height, IRect.height]
  ring

/-- The FilterResult wrapped around a decal extract of dstBounds is either
empty or has layer bounds inside dstBounds. -/
theorem ofPair_extract_subsetOf (img : Image) (o : ℤ × ℤ) (db : IRect) (flag : Bool)
    (hflag : flag = false) :
    (FilterResult.ofPair (extract_subset img o db flag)).image = none ∨
    (FilterResult.ofPair (extract_subset img o db flag)).layerBounds.subsetOf db := by
  subst hflag
  have hrs := relevantSubset_decal_subsetOf (IRect.atOrigin o.1 o.2 img.width img.height) db
  unfold extract_subset
  simp only [Bool.false_eq_true, if_false]
  set ib := relevantSubset (IRect.atOrigin o.1 o.2 img.width img.height) db Tile.decal with hib
  by_cases h : ib.isEmpty = true
  · rw [if_pos h]
    left
    rfl
  · rw [if_neg h]
    right
    simp only [FilterResult.ofPair]
    rw [makeSubset_width, makeSubset_height]
    unfold IRect.subsetOf IRect.isEmpty at hrs
    simp only [Bool.or_eq_true, decide_eq_true_eq] at hrs
    unfold IRect.isEmpty at h
    simp only [Bool.or_eq_true, decide_eq_true_eq] at h
    unfold IRect.subsetOf IRect.isEmpty IRect.atOrigin IRect.width IRect.height
    simp only [Bool.or_eq_true, decide_eq_true_eq]
    rcases hrs with hs | hs
    · omega
    · right
      omega

/-- updateTileMode with a non-decal mode yields the desired output as layer
bounds (or an empty result). -/
theorem updateTileMode_lb_of_ne_decal (fr : FilterResult) (ctx : Context) (tm : Tile)
    (h : tm ≠ Tile.decal) :
    (updateTileMode fr ctx tm).image = none ∨
    (updateTileMode fr ctx tm).layerBounds = ctx.desiredOutput := by
  unfold updateTileMode
  by_cases hi : fr.image.isSome = true
  · rw [if_pos hi]
    right
    simp [h]
  · rw [if_neg hi]
    left
    cases hfi : fr.image
    · rfl
    · exact absurd (by simp [hfi]) hi

/-- updateTileMode with decal leaves the layer bounds unchanged. -/
theorem updateTileMode_lb_of_decal (fr : FilterResult) (ctx : Context) :
    (updateTileMode fr ctx .decal).layerBounds = fr.layerBounds := by
  unfold updateTileMode
  by_cases hi : fr.image.isSome = true
  · rw [if_pos hi]; simp
  · rw [if_neg hi]

end Skif

namespace Skif

/-- transformFinish clips every non-empty result to the desired output. -/
theorem transformFinish_bounds (res : FilterResult) (ctx : Context) (t : Mat)
    (smp : Sampling) (cnt : ℕ) :
    (transformFinish res ctx t smp cnt).1.image = none ∨
    (transformFinish res ctx t smp cnt).1.layerBounds.subsetOf ctx.desiredOutput := by
  unfold transformFinish
  split
  · left; rfl
  · split
    · left; rfl
    · rename_i nb heq
      right
      exact inter_subsetOf_right heq

/-- applyTransform clips every non-empty result to the desired output. -/
theorem applyTransform_bounds (fr : FilterResult) (ctx : Context) (t : Mat) (s : Sampling) :
    (applyTransform fr ctx t s).1.image = none ∨
    (applyTransform fr ctx t s).1.layerBounds.subsetOf ctx.desiredOutput := by
  unfold applyTransform
  split
  · left; rfl
  · exact transformFinish_bounds _ _ _ _ _

end Skif

namespace Skif

/-- updateTileMode never changes the image. -/
theorem updateTileMode_image (fr : FilterResult) (ctx : Context) (tm : Tile) :
    (updateTileMode fr ctx tm).image = fr.image := by
  unfold updateTileMode
  by_cases hi : fr.image.isSome = true
  · rw [if_pos hi]
  · rw [if_neg hi]

/-- When crop normalization emits a decal tile mode, the fitted crop is either
the crop content (original decal request) or the whole desired output (the
full-coverage downgrade). -/
theorem crop_normalize_decal_fitted (rt tmP : Tile) (out cc1 f0 : IRect)
    (h : (crop_normalize rt tmP out cc1 f0).2.1 = Tile.decal) :
    ((crop_normalize rt tmP out cc1 f0).2.2.1 = cc1 ∧ tmP = Tile.decal) ∨
    (crop_normalize rt tmP out cc1 f0).2.2.1 = out := by
  unfold crop_normalize at h ⊢
  split_ifs at h ⊢ with h1 h2 h3 h4
  · exact Or.inl ⟨rfl, h1⟩
  · exact Or.inr rfl
  · exact absurd h h1
  · exact absurd h h1
  · exact absurd h h1

/-- rescaleFinish either fails or installs exactly the visible layer bounds. -/
theorem rescaleFinish_bounds (st : RescaleState) (srcRect visible : IRect) (ed : Bool) :
    (rescaleFinish st srcRect visible ed).1.image = none ∨
    (rescaleFinish st srcRect visible ed).1.layerBounds = visible := by
  unfold rescaleFinish
  split
  · left; rfl
  · right; rfl

/-- updateTileMode keeps results inside the desired output, given a bound on
the incoming layer bounds for the decal case. -/
theorem fastPath_bounds (ro : FilterResult) (ctx : Context) (tm : Tile) (F : IRect)
    (hlb : tm = Tile.decal → (ro.layerBounds.subsetOf F ∨ ro.image = none))
    (hF : tm = Tile.decal → F.subsetOf ctx.desiredOutput) :
    (updateTileMode ro ctx tm).image = none ∨
    (updateTileMode ro ctx tm).layerBounds.subsetOf ctx.desiredOutput := by
  by_cases htm : tm = Tile.decal
  · rcases hlb htm with hlb2 | hlb2
    · right
      rw [htm, updateTileMode_lb_of_decal]
      exact subsetOf_trans hlb2 (hF htm)
    · left
      rw [updateTileMode_image]
      exact hlb2
  · rcases updateTileMode_lb_of_ne_decal ro ctx tm htm with h | h
    · left; exact h
    · right; rw [h]; exact subsetOf_refl _

/-- The post-periodic tail of applyCrop stays inside the desired output. -/
theorem applyCropPost_bounds (fr : FilterResult) (ctx : Context) (img : Image)
    (cc1 fitted0 : IRect) (tileMode : Tile)
    (hcc1 : cc1.subsetOf fitted0)
    (hf0 : tileMode = Tile.decal → fitted0.subsetOf ctx.desiredOutput) :
    (applyCropPost fr ctx img cc1 fitted0 tileMode).1.image = none ∨
    (applyCropPost fr ctx img cc1 fitted0 tileMode).1.layerBounds.subsetOf
      ctx.desiredOutput := by
  have hfit : (crop_normalize fr.tileMode tileMode ctx.desiredOutput cc1 fitted0).2.1 =
      Tile.decal →
      (crop_normalize fr.tileMode tileMode ctx.desiredOutput cc1 fitted0).2.2.1.subsetOf
        ctx.desiredOutput := by
    intro h
    rcases crop_normalize_decal_fitted _ _ _ _ _ h with ⟨he, htm⟩ | he
    · rw [he]; exact subsetOf_trans hcc1 (hf0 htm)
    · rw [he]; exact subsetOf_refl _
  have hfb : ∀ cnt2 : ℕ,
      ((if (crop_normalize fr.tileMode tileMode ctx.desiredOutput cc1 fitted0).2.1 =
           Tile.decal then
          ({ fr with layerBounds :=
               (crop_normalize fr.tileMode tileMode ctx.desiredOutput cc1 fitted0).2.2.1 },
           (0 : ℕ))
        else
          (updateTileMode
             (FilterResult.ofPair
               (resolve fr ctx
                 (crop_normalize fr.tileMode tileMode ctx.desiredOutput cc1 fitted0).2.2.1
                 true).1)
             ctx (crop_normalize fr.tileMode tileMode ctx.desiredOutput cc1 fitted0).2.1,
           cnt2)).1.image = none ∨
       (if (crop_normalize fr.tileMode tileMode ctx.desiredOutput cc1 fitted0).2.1 =
           Tile.decal then
          ({ fr with layerBounds :=
               (crop_normalize fr.tileMode tileMode ctx.desiredOutput cc1 fitted0).2.2.1 },
           (0 : ℕ))
        else
          (updateTileMode
             (FilterResult.ofPair
               (resolve fr ctx
                 (crop_normalize fr.tileMode tileMode ctx.desiredOutput cc1 fitted0).2.2.1
                 true).1)
             ctx (crop_normalize fr.tileMode tileMode ctx.desiredOutput cc1 fitted0).2.1,
           cnt2)).1.layerBounds.subsetOf ctx.desiredOutput) := by
    intro cnt2
    by_cases htm : (crop_normalize fr.tileMode tileMode ctx.desiredOutput cc1 fitted0).2.1 =
        Tile.decal
    · rw [if_pos htm]
      right
      exact hfit htm
    · rw [if_neg htm]
      exact fastPath_bounds _ ctx _ IRect.emptyR (fun h => absurd h htm) (fun h => absurd h htm)
  unfold applyCropPost
  simp only []
  split
  · split
    · exact fastPath_bounds _ ctx _
        (crop_normalize fr.tileMode tileMode ctx.desiredOutput cc1 fitted0).2.2.1
        (fun htm => by
          have hdc : (decide (fr.tileMode = Tile.clamp) &&
              decide ((crop_normalize fr.tileMode tileMode ctx.desiredOutput cc1
                fitted0).2.1 = Tile.clamp)) = false := by
            rw [htm]; simp
          rcases ofPair_extract_subsetOf img _
              (crop_normalize fr.tileMode tileMode ctx.desiredOutput cc1 fitted0).2.2.1
              _ hdc with h | h
          · exact Or.inr h
          · exact Or.inl h)
        hfit
    · exact hfb _
  · exact hfb _

end Skif

namespace Skif

/-- applyCrop keeps every non-empty result inside the desired output. -/
theorem applyCrop_bounds (fr : FilterResult) (ctx : Context) (crop : IRect) (tm : Tile) :
    (applyCrop fr ctx crop tm).1.image = none ∨
    (applyCrop fr ctx crop tm).1.layerBounds.subsetOf ctx.desiredOutput := by
  unfold applyCrop
  split
  · left; rfl
  · split
    · left; rfl
    · rename_i img himg
      simp only []
      split
      · left; rfl
      · rename_i cc0 hcc0
        split
        · left; rfl
        · rename_i cc1 hcc1
          split
          · exact applyTransform_bounds _ _ _ _
          · exact applyCropPost_bounds fr ctx img cc1
              (relevantSubset crop ctx.desiredOutput tm) tm
              (inter_subsetOf_right hcc1)
              (fun h => by rw [h]; exact relevantSubset_decal_subsetOf crop ctx.desiredOutput)

/-- applyColorFilter keeps every non-empty result inside the desired output. -/
theorem applyColorFilter_bounds (fr : FilterResult) (ctx : Context) (cf : ColorFilter) :
    (applyColorFilter fr ctx cf).1.image = none ∨
    (applyColorFilter fr ctx cf).1.layerBounds.subsetOf ctx.desiredOutput := by
  unfold applyColorFilter
  split
  · left; rfl
  · split
    · split
      · rename_i i nlb himg hnlb
        split
        · refine (updateTileMode_lb_of_ne_decal _ ctx .clamp (by decide)).imp
            (fun h => h) (fun h => ?_)
          rw [h]
          exact subsetOf_refl _
        · right
          exact subsetOf_refl _
      · refine (updateTileMode_lb_of_ne_decal _ ctx .clamp (by decide)).imp
          (fun h => h) (fun h => ?_)
        rw [h]
        exact subsetOf_refl _
    · split
      · rename_i i nlb himg hnlb
        right
        exact inter_subsetOf_right hnlb
      · left; rfl

/-- rescale keeps every non-empty result inside the desired output. -/
theorem rescale_bounds (fr : FilterResult) (ctx : Context) (scale : ℚ × ℚ) (ed : Bool) :
    (rescale fr ctx scale ed).1.image = none ∨
    (rescale fr ctx scale ed).1.layerBounds.subsetOf ctx.desiredOutput := by
  unfold rescale
  split
  · rename_i img visible himg hvis
    split
    · left; rfl
    · simp only []
      split
      · split
        · right
          exact inter_subsetOf_right hvis
        · rcases ofPair_extract_subsetOf img _ visible false rfl with h | h
          · left; exact h
          · right
            exact subsetOf_trans h (inter_subsetOf_right hvis)
      · split
        · split
          · left; rfl
          · refine (rescaleFinish_bounds _ _ _ _).imp (fun h => h) (fun h => ?_)
            rw [h]
            exact inter_subsetOf_right hvis
        · split
          · left; rfl
          · refine (rescaleFinish_bounds _ _ _ _).imp (fun h => h) (fun h => ?_)
            rw [h]
            exact inter_subsetOf_right hvis
  · left; rfl

/-- C9: every FilterResult returned by applyCrop, applyColorFilter,
applyTransform, or rescale is either empty or has layerBounds contained in
the Context's desired output rectangle. -/
theorem ops_respect_desired_output :
    (∀ (fr : FilterResult) (ctx : Context) (crop : IRect) (tm : Tile),
       (applyCrop fr ctx crop tm).1.image = none ∨
       (applyCrop fr ctx crop tm).1.layerBounds.subsetOf ctx.desiredOutput) ∧
    (∀ (fr : FilterResult) (ctx : Context) (cf : ColorFilter),
       (applyColorFilter fr ctx cf).1.image = none ∨
       (applyColorFilter fr ctx cf).1.layerBounds.subsetOf ctx.desiredOutput) ∧
    (∀ (fr : FilterResult) (ctx : Context) (t : Mat) (s : Sampling),
       (applyTransform fr ctx t s).1.image = none ∨
       (applyTransform fr ctx t s).1.layerBounds.subsetOf ctx.desiredOutput) ∧
    (∀ (fr : FilterResult) (ctx : Context) (scale : ℚ × ℚ) (ed : Bool),
       (rescale fr ctx scale ed).1.image = none ∨
       (rescale fr ctx scale ed).1.layerBounds.subsetOf ctx.desiredOutput) :=
  ⟨applyCrop_bounds, applyColorFilter_bounds, applyTransform_bounds, rescale_bounds⟩

end Skif

namespace Skif

/-- An exact integer translation is recognized by is_nearly_integer_translation. -/
theorem is_nearly_translateM (a b : ℤ) :
    is_nearly_integer_translation (Mat.translateM (a : ℚ) (b : ℚ)) = some (a, b) := by
  unfold is_nearly_integer_translation Mat.translateM
  simp only [roundQ_intCast]
  rw [if_pos (by unfold nearlyEqQ kRoundEpsilon; norm_num)]

/-- Helper: projecting the hasLayerFillingEffect field out of an if whose
branches both carry a literal false in that slot. -/
theorem ite_hlfe_false (c : Prop) [Decidable c] (a b d e a' b' d' e' : Bool) :
    (if c then (⟨a, b, false, d, e⟩ : BoundsAnalysis)
     else ⟨a', b', false, d', e'⟩).hasLayerFillingEffect = false := by
  split <;> rfl

/-- A decal-tiled FilterResult without a color filter has no layer-filling
effect in any bounds analysis. -/
theorem analyzeBounds_hlfe_false (fr : FilterResult) (x : Mat) (d : IRect)
    (h1 : fr.tileMode = Tile.decal) (h2 : fr.colorFilter = none) :
    (analyzeBounds fr x d).hasLayerFillingEffect = false := by
  unfold analyzeBounds
  cases hi : fr.image with
  | none => rfl
  | some img =>
    simp only [h1, h2]
    have hfills : (decide (Tile.decal ≠ Tile.decal) || cfAffectsTB none) = false := by decide
    rw [hfills]
    simp only [Bool.and_false]
    exact ite_hlfe_false _ _ _ _ _ _ _ _ _

/-- applyCrop on a result with no image is the empty result. -/
theorem applyCrop_of_image_none (fr : FilterResult) (ctx : Context) (crop : IRect)
    (tm : Tile) (h : fr.image = none) :
    applyCrop fr ctx crop tm = (FilterResult.emptyFR, 0) := by
  unfold applyCrop
  split
  · rfl
  · simp only [h]

/-- A decal crop is never simplified by the periodic collapse. -/
theorem periodic_decal_none (c o : IRect) :
    periodic_axis_transform Tile.decal c o = none := by
  unfold periodic_axis_transform
  rw [if_pos (Or.inr rfl)]

/-- Taking the full subset of an image is the identity. -/
theorem makeSubset_full (img : Image) :
    img.makeSubset ⟨0, 0, img.width, img.height⟩ = img := by
  cases img with
  | mk px sub bw bh ct cs =>
    cases sub with
    | mk l t r b =>
      simp only [Image.makeSubset, Image.width, Image.height, IRect.width, IRect.height,
        Image.mk.injEq, IRect.mk.injEq, true_and, and_true]
      omega

/-- Componentwise bounds from a containment with a non-empty smaller rect. -/
theorem subset_components {x y : IRect} (h : x.subsetOf y) (hne : x.isEmpty = false) :
    y.l ≤ x.l ∧ y.t ≤ x.t ∧ x.r ≤ y.r ∧ x.b ≤ y.b := by
  rcases h with h | h
  · rw [h] at hne
    exact absurd hne (by simp)
  · exact h

/-- applyCrop reduced past all early-outs and the periodic collapse. -/
theorem applyCrop_eval_post (fr : FilterResult) (ctx : Context) (crop : IRect) (tm : Tile)
    (img : Image) (cc0 cc1 : IRect)
    (h0 : (crop.isEmpty || ctx.desiredOutput.isEmpty) = false)
    (himg : fr.image = some img)
    (hcc0 : crop.inter fr.layerBounds = some cc0)
    (hcc1 : cc0.inter (relevantSubset crop ctx.desiredOutput tm) = some cc1)
    (hper : periodic_axis_transform tm (relevantSubset crop ctx.desiredOutput tm)
        ctx.desiredOutput = none) :
    applyCrop fr ctx crop tm =
      applyCropPost fr ctx img cc1 (relevantSubset crop ctx.desiredOutput tm) tm := by
  unfold applyCrop
  rw [h0]
  simp only [Bool.false_eq_true, if_false, himg, hcc0, hcc1, hper]

/-- Mirror of inter_of_subset: intersecting a rectangle with a superset
returns the rectangle itself. -/
theorem inter_of_subset_left {x z : IRect} (hz : z.isEmpty = false)
    (h : x.l ≤ z.l ∧ x.t ≤ z.t ∧ z.r ≤ x.r ∧ z.b ≤ x.b) : z.inter x = some z := by
  simp only [IRect.inter]
  have e1 : max z.l x.l = z.l := max_eq_left h.1
  have e2 : max z.t x.t = z.t := max_eq_left h.2.1
  have e3 : min z.r x.r = z.r := min_eq_left h.2.2.1
  have e4 : min z.b x.b = z.b := min_eq_left h.2.2.2
  simp only [e1, e2, e3, e4]
  have hzz : (⟨z.l, z.t, z.r, z.b⟩ : IRect) = z := by cases z; rfl
  rw [hzz, if_neg (by simp [hz])]

/-- crop_normalize with a decal crop tile leaves everything unchanged. -/
theorem crop_normalize_decal (rt : Tile) (out cc1 f0 : IRect) :
    crop_normalize rt Tile.decal out cc1 f0 = (false, Tile.decal, cc1, cc1) := rfl

/-- FilterResult::ofPair on a present image. -/
theorem ofPair_some (img : Image) (o : ℤ × ℤ) :
    FilterResult.ofPair (some img, o) =
      ⟨some img, Mat.translateM o.1 o.2, kDefaultSampling, Tile.decal, none,
       IRect.atOrigin o.1 o.2 img.width img.height⟩ := rfl

/-- Updating the color filter of an explicit FilterResult record. -/
theorem withCF_none (i : Option Image) (m : Mat) (sp : Sampling) (t : Tile)
    (cf : Option ColorFilter) (lb : IRect) :
    { (⟨i, m, sp, t, cf, lb⟩ : FilterResult) with colorFilter := none }
      = ⟨i, m, sp, t, none, lb⟩ := rfl

/-- updateTileMode with decal on an already-decal result with an image is
the identity. -/
theorem updateTileMode_decal_id (img : Image) (m : Mat) (sp : Sampling)
    (cf : Option ColorFilter) (lb : IRect) (ctx : Context) :
    updateTileMode ⟨some img, m, sp, Tile.decal, cf, lb⟩ ctx Tile.decal
      = ⟨some img, m, sp, Tile.decal, cf, lb⟩ := rfl

/-- applyCrop on the canonical empty result yields the empty result without
creating surfaces. -/
theorem applyCrop_emptyFR (ctx : Context) (crop : IRect) (tm : Tile) :
    applyCrop FilterResult.emptyFR ctx crop tm = (FilterResult.emptyFR, 0) := by
  unfold applyCrop
  split <;> rfl

/-- applyCropPost with a decal crop tile on a decal, color-filter-free,
integer-translated receiver always takes the analytic subset fast path. -/
theorem applyCropPost_decal_fast (fr : FilterResult) (ctx : Context) (img : Image)
    (cc1 f0 : IRect) (a b : ℤ)
    (h1 : fr.tileMode = Tile.decal) (h2 : fr.colorFilter = none)
    (h3 : fr.transform = Mat.translateM (a : ℚ) (b : ℚ)) :
    applyCropPost fr ctx img cc1 f0 Tile.decal =
      (updateTileMode
        { FilterResult.ofPair (extract_subset img (a, b) cc1 false) with
          colorFilter := none } ctx Tile.decal, 0) := by
  have hlf : (analyzeBoundsId fr cc1).hasLayerFillingEffect = false := by
    unfold analyzeBoundsId
    exact analyzeBounds_hlfe_false fr Mat.I cc1 h1 h2
  unfold applyCropPost
  rw [h1, h2, h3]
  simp only [crop_normalize_decal, is_nearly_translateM, hlf,
    show (decide (Tile.decal = Tile.clamp)) = false from rfl,
    Bool.false_and, Bool.and_false, Bool.false_eq_true, if_false,
    Bool.not_false, Bool.or_true, if_true]

/-- extract_subset of an image exactly covering its (non-empty) placement is
the identity extraction. -/
theorem extract_subset_self (img : Image) (ib : IRect) (hne : ib.isEmpty = false)
    (hw : img.width = ib.width) (hh : img.height = ib.height) :
    extract_subset img (ib.l, ib.t) ib false = (some img, (ib.l, ib.t)) := by
  unfold extract_subset
  have h1 : IRect.atOrigin ib.l ib.t img.width img.height = ib := by
    rw [hw, hh]; exact atOrigin_self ib
  have h2 : relevantSubset ib ib Tile.decal = ib := by
    rw [relevantSubset_decal_eq,
      inter_of_subset hne ⟨le_refl _, le_refl _, le_refl _, le_refl _⟩]
    rfl
  simp only [Bool.false_eq_true, if_false, h1, h2, hne]
  have h3 : (⟨ib.l - ib.l, ib.t - ib.t, ib.r - ib.l, ib.b - ib.t⟩ : IRect)
      = ⟨0, 0, img.width, img.height⟩ := by
    rw [hw, hh]
    unfold IRect.width IRect.height
    simp only [IRect.mk.injEq]
    exact ⟨by omega, by omega, trivial, trivial⟩
  rw [h3, makeSubset_full]

/-- FilterResult::ofPair on a present image, origin given componentwise. -/
theorem ofPair_some2 (img : Image) (ox oy : ℤ) :
    FilterResult.ofPair (some img, (ox, oy)) =
      ⟨some img, Mat.translateM (ox : ℚ) (oy : ℚ), kDefaultSampling, Tile.decal, none,
       IRect.atOrigin ox oy img.width img.height⟩ := rfl

/-- extract_subset with a decal source unfolded to its two outcomes. -/
theorem extract_subset_eval (img : Image) (a b : ℤ) (db : IRect) :
    extract_subset img (a, b) db false =
      (if (relevantSubset (IRect.atOrigin a b img.width img.height) db Tile.decal).isEmpty
       then (none, (0, 0))
       else
         (some (img.makeSubset
            ⟨(relevantSubset (IRect.atOrigin a b img.width img.height) db Tile.decal).l - a,
             (relevantSubset (IRect.atOrigin a b img.width img.height) db Tile.decal).t - b,
             (relevantSubset (IRect.atOrigin a b img.width img.height) db Tile.decal).r - a,
             (relevantSubset (IRect.atOrigin a b img.width img.height) db Tile.decal).b - b⟩),
          ((relevantSubset (IRect.atOrigin a b img.width img.height) db Tile.decal).l,
           (relevantSubset (IRect.atOrigin a b img.width img.height) db Tile.decal).t))) :=
  rfl

/-- Retiling the extracted subset with decal reproduces the canonical decal
record whose layer bounds are the extracted placement. -/
theorem decal_repack (img : Image) (ib : IRect) (ctx : Context)
    (hw : img.width = ib.width) (hh : img.height = ib.height) :
    updateTileMode { FilterResult.ofPair (some img, (ib.l, ib.t)) with colorFilter := none }
        ctx Tile.decal
      = ⟨some img, Mat.translateM (ib.l : ℚ) (ib.t : ℚ), kDefaultSampling, Tile.decal,
         none, ib⟩ := by
  have hao : IRect.atOrigin ib.l ib.t img.width img.height = ib := by
    rw [hw, hh]; exact atOrigin_self ib
  rw [ofPair_some2, withCF_none, updateTileMode_decal_id, hao]

/-- The fixed-point half of the amended idempotence: a canonical decal
record whose image exactly covers its layer bounds, placed inside both crop
and the relevant subset, is returned unchanged by applyCrop with decal. -/
theorem applyCrop_canonical_fixed (ctx : Context) (crop ib : IRect) (img : Image)
    (h0 : (crop.isEmpty || ctx.desiredOutput.isEmpty) = false)
    (hne : ib.isEmpty = false)
    (hsc : ib.subsetOf crop)
    (hsf : ib.subsetOf (relevantSubset crop ctx.desiredOutput Tile.decal))
    (hw : img.width = ib.width) (hh : img.height = ib.height) :
    applyCrop ⟨some img, Mat.translateM (ib.l : ℚ) (ib.t : ℚ), kDefaultSampling, Tile.decal,
        none, ib⟩ ctx crop Tile.decal
      = (⟨some img, Mat.translateM (ib.l : ℚ) (ib.t : ℚ), kDefaultSampling, Tile.decal,
          none, ib⟩, 0) := by
  have hic : crop.inter ib = some ib :=
    inter_of_subset hne (subset_components hsc hne)
  have hif : ib.inter (relevantSubset crop ctx.desiredOutput Tile.decal) = some ib :=
    inter_of_subset_left hne (subset_components hsf hne)
  rw [applyCrop_eval_post _ ctx crop Tile.decal img ib ib h0 rfl hic hif
    (periodic_decal_none _ _)]
  rw [applyCropPost_decal_fast _ ctx img ib _ ib.l ib.t rfl rfl rfl]
  rw [extract_subset_self img ib hne hw hh]
  rw [decal_repack img ib ctx hw hh]

/-- The shape half of the amended idempotence: applyCrop with decal on a
decal, color-filter-free, integer-translated receiver is either empty or a
canonical decal record sitting inside the crop and its relevant subset. -/
theorem applyCrop_decal_shape (fr : FilterResult) (ctx : Context) (crop : IRect) (a b : ℤ)
    (h1 : fr.tileMode = Tile.decal) (h2 : fr.colorFilter = none)
    (h3 : fr.transform = Mat.translateM (a : ℚ) (b : ℚ)) :
    (applyCrop fr ctx crop Tile.decal).1 = FilterResult.emptyFR ∨
    ∃ img ib, (crop.isEmpty || ctx.desiredOutput.isEmpty) = false ∧
      ib.isEmpty = false ∧ ib.subsetOf crop ∧
      ib.subsetOf (relevantSubset crop ctx.desiredOutput Tile.decal) ∧
      img.width = ib.width ∧ img.height = ib.height ∧
      (applyCrop fr ctx crop Tile.decal).1 =
        ⟨some img, Mat.translateM (ib.l : ℚ) (ib.t : ℚ), kDefaultSampling, Tile.decal,
         none, ib⟩ := by
  cases h0 : (crop.isEmpty || ctx.desiredOutput.isEmpty) with
  | true =>
    left
    unfold applyCrop
    rw [h0, if_pos rfl]
  | false =>
    cases hi : fr.image with
    | none =>
      left
      rw [applyCrop_of_image_none fr ctx crop Tile.decal hi]
    | some img =>
      cases hc0 : crop.inter fr.layerBounds with
      | none =>
        left
        unfold applyCrop
        rw [h0]
        simp only [Bool.false_eq_true, if_false, hi, hc0]
      | some cc0 =>
        cases hc1 : cc0.inter (relevantSubset crop ctx.desiredOutput Tile.decal) with
        | none =>
          left
          unfold applyCrop
          rw [h0]
          simp only [Bool.false_eq_true, if_false, hi, hc0, hc1]
        | some cc1 =>
          have heval := applyCrop_eval_post fr ctx crop Tile.decal img cc0 cc1 h0 hi hc0 hc1
            (periodic_decal_none _ _)
          rw [applyCropPost_decal_fast fr ctx img cc1 _ a b h1 h2 h3,
            extract_subset_eval] at heval
          cases hrb : (relevantSubset (IRect.atOrigin a b img.width img.height) cc1
              Tile.decal).isEmpty with
          | true =>
            left
            rw [if_pos hrb] at heval
            rw [heval]
            exact rfl
          | false =>
            rw [if_neg (by rw [hrb]; exact Bool.false_ne_true)] at heval
            set rb := relevantSubset (IRect.atOrigin a b img.width img.height) cc1
              Tile.decal with hrbdef
            have hwid : (img.makeSubset ⟨rb.l - a, rb.t - b, rb.r - a, rb.b - b⟩).width
                = rb.width := by
              rw [makeSubset_width]
              show rb.r - a - (rb.l - a) = rb.r - rb.l
              omega
            have hhgt : (img.makeSubset ⟨rb.l - a, rb.t - b, rb.r - a, rb.b - b⟩).height
                = rb.height := by
              rw [makeSubset_height]
              show rb.b - b - (rb.t - b) = rb.b - rb.t
              omega
            rw [decal_repack _ rb ctx hwid hhgt] at heval
            right
            have hrb1 : rb.subsetOf cc1 := hrbdef ▸ relevantSubset_decal_subsetOf _ _
            have hcc1l : cc1.subsetOf cc0 := inter_subsetOf_left hc1
            have hcc1r : cc1.subsetOf (relevantSubset crop ctx.desiredOutput Tile.decal) :=
              inter_subsetOf_right hc1
            have hcc0l : cc0.subsetOf crop := inter_subsetOf_left hc0
            exact ⟨img.makeSubset ⟨rb.l - a, rb.t - b, rb.r - a, rb.b - b⟩, rb, rfl, hrb,
              subsetOf_trans (subsetOf_trans hrb1 hcc1l) hcc0l,
              subsetOf_trans hrb1 hcc1r, hwid, hhgt, by rw [heval]⟩

/-- Fixture: a decal, color-filter-free receiver whose transform is an exact
integer translation, over the checker image. -/
def c1fix : FilterResult :=
  ⟨some chkImg, Mat.translateM ((0 : ℤ) : ℚ) ((0 : ℤ) : ℚ), kDefaultSampling, Tile.decal,
   none, ⟨0, 0, 10, 10⟩⟩

/-- C1: applying the same crop twice with the same tile mode gives the same
result as applying it once. The spec's unconditional idempotence fails for
periodic tile modes clipped by the desired output (see the counterexample);
the amended claim holds for decal crops of decal-tiled, color-filter-free
receivers under an integer translation: the second applyCrop returns the
first result unchanged and creates no offscreen surfaces. -/
theorem applyCrop_decal_idempotent (fr : FilterResult) (ctx : Context) (crop : IRect)
    (a b : ℤ) (h1 : fr.tileMode = Tile.decal) (h2 : fr.colorFilter = none)
    (h3 : fr.transform = Mat.translateM (a : ℚ) (b : ℚ)) :
    applyCrop (applyCrop fr ctx crop Tile.decal).1 ctx crop Tile.decal
      = ((applyCrop fr ctx crop Tile.decal).1, 0) := by
  rcases applyCrop_decal_shape fr ctx crop a b h1 h2 h3 with
    h | ⟨img, ib, h0, hne, hsc, hsf, hw, hh, heq⟩
  · rw [h]
    exact applyCrop_emptyFR ctx crop Tile.decal
  · rw [heq]
    exact applyCrop_canonical_fixed ctx crop ib img h0 hne hsc hsf hw hh

/-- Witness for applyCrop_decal_idempotent at the checker fixture. -/
theorem applyCrop_decal_idempotent_witness :
    c1fix.tileMode = Tile.decal ∧ c1fix.colorFilter = none ∧
    c1fix.transform = Mat.translateM ((0 : ℤ) : ℚ) ((0 : ℤ) : ℚ) ∧
    applyCrop (applyCrop c1fix c3ctx ⟨0, 0, 5, 5⟩ Tile.decal).1 c3ctx ⟨0, 0, 5, 5⟩ Tile.decal
      = ((applyCrop c1fix c3ctx ⟨0, 0, 5, 5⟩ Tile.decal).1, 0) :=
  ⟨rfl, rfl, rfl, applyCrop_decal_idempotent c1fix c3ctx ⟨0, 0, 5, 5⟩ 0 0 rfl rfl rfl⟩

end Skif
